import Mathlib

/-!
# FlowLedger scheduler: a shallow embedding

This file embeds the recurring-job scheduler of the FlowLedger repository
(`src/api/app/routers/scheduler.py`, `src/api/app/tasks/scheduler_service.py`,
row types from `src/api/app/models.py`) and proves the specification claims
about it.

Modelling conventions:
* All datetimes are integers (whole minutes, UTC).  The lead time
  `advance_minutes` is subtracted directly (`timedelta(minutes=...)`).
* `_period_key` (strftime `%Y-%m-%dT%H:%M`) becomes the scheduled minute
  itself, since times are already whole minutes.
* The database session is a value of type `DB`; ORM mutation of a row becomes
  a functional update of the corresponding list entry (keyed by primary key),
  and `db.add` appends a row with the next autoincrement id.
* The third-party `apscheduler` cron parser is outside the repository; it is
  abstracted as a `CronLib` value (`from_crontab` raising `ValueError` on an
  unparseable expression becomes `Except.error`).
* The notification sink (`_send_bot_notification`, an HTTP call that returns
  `False` on any exception) is abstracted as a boolean oracle
  `sink : Int → String → Bool` of the telegram user id and the message text.
-/

set_option maxHeartbeats 1000000

namespace FlowLedger

/-- A `user.users` row (`src/api/app/models.py`): only the fields the
scheduler reads. -/
structure User where
  id : Nat
  telegram_user_id : Option Int
  is_bot_enabled : Bool
deriving Repr, DecidableEq

/-- A `scheduler.jobs` row (`src/api/app/models.py`, `SchedulerJob`). -/
structure SchedulerJob where
  id : Nat
  user_id : Nat
  name : String
  description : Option String
  rule : String
  first_run_at : Int
  advance_minutes : Int
  channel : String
  status : String
  created_at : Int
  updated_at : Int
deriving Repr, DecidableEq

/-- A `scheduler.job_runs` row (`src/api/app/models.py`, `SchedulerJobRun`). -/
structure SchedulerJobRun where
  id : Nat
  job_id : Nat
  period_key : Int
  scheduled_at : Int
  sent_at : Option Int
  status : String
  created_at : Int
  updated_at : Int
deriving Repr, DecidableEq

/-- A `scheduler.reminders` row (`src/api/app/models.py`, `SchedulerReminder`).
The JSON payload dict is abstracted to its text component. -/
structure SchedulerReminder where
  id : Nat
  job_run_id : Nat
  sent_at : Int
  payload : Option String
  created_at : Int
  updated_at : Int
deriving Repr, DecidableEq

/-- A `scheduler.confirmations` row (`src/api/app/models.py`,
`SchedulerConfirmation`).  The JSON payload is abstracted to an opaque
optional string. -/
structure SchedulerConfirmation where
  id : Nat
  job_run_id : Nat
  action : String
  confirmed_at : Int
  idempotency_key : String
  payload : Option String
  created_at : Int
  updated_at : Int
deriving Repr, DecidableEq

/-- The database state seen through one SQLAlchemy session, with the
autoincrement counters of the four scheduler tables. -/
structure DB where
  users : List User
  jobs : List SchedulerJob
  runs : List SchedulerJobRun
  confirmations : List SchedulerConfirmation
  reminders : List SchedulerReminder
  nextJobId : Nat
  nextRunId : Nat
  nextConfId : Nat
  nextRemId : Nat
deriving Repr, DecidableEq

/-- `_period_key`: strftime at minute granularity; times are modelled as
whole minutes, so the key is the scheduled minute itself. -/
def period_key (t : Int) : Int := t

/-- A `fastapi.HTTPException` value. -/
structure HTTPError where
  status : Nat
  detail : String
deriving Repr, DecidableEq

/-- `_require_job_run` (`src/api/app/routers/scheduler.py` lines 33-40):
resolve a run by primary key and check that its job belongs to `user_id`;
absence and foreign ownership raise the same 404. -/
def require_job_run (db : DB) (job_run_id : Nat) (user_id : Nat) :
    Except HTTPError SchedulerJobRun :=
  match db.runs.find? (fun r => r.id == job_run_id) with
  | none => .error ⟨404, "job_run_not_found"⟩
  | some run =>
    match db.jobs.find? (fun j => j.id == run.job_id) with
    | none => .error ⟨404, "job_run_not_found"⟩
    | some job =>
      if job.user_id == user_id then .ok run
      else .error ⟨404, "job_run_not_found"⟩

/-- The `JobCreate` request model (`src/api/app/routers/scheduler.py`). -/
structure JobCreate where
  name : String
  description : Option String
  rule : String
  first_run_at : Int
  advance_minutes : Int
  channel : String
  status : String
deriving Repr, DecidableEq

/-- `create_job` (`src/api/app/routers/scheduler.py` lines 102-141):
validates channel and status, inserts the Job and, unconditionally, its
first pending JobRun scheduled at `first_run_at`. -/
def create_job (db : DB) (p : JobCreate) (user_id : Nat) (now : Int) :
    Except HTTPError (SchedulerJob × DB) :=
  if p.channel ≠ "telegram" then .error ⟨422, "unsupported_channel"⟩
  else if p.status ∉ (["active", "paused", "archived"] : List String) then
    .error ⟨422, "invalid_status"⟩
  else
    let job : SchedulerJob :=
      { id := db.nextJobId, user_id := user_id, name := p.name,
        description := p.description, rule := p.rule,
        first_run_at := p.first_run_at, advance_minutes := p.advance_minutes,
        channel := p.channel, status := p.status,
        created_at := now, updated_at := now }
    let run : SchedulerJobRun :=
      { id := db.nextRunId, job_id := job.id,
        period_key := period_key p.first_run_at,
        scheduled_at := p.first_run_at, sent_at := none, status := "pending",
        created_at := now, updated_at := now }
    .ok (job, { db with jobs := db.jobs ++ [job], runs := db.runs ++ [run],
                        nextJobId := db.nextJobId + 1,
                        nextRunId := db.nextRunId + 1 })

/-- `ORDER BY scheduled_at DESC`. -/
def runDescOrder (a b : SchedulerJobRun) : Prop :=
  b.scheduled_at ≤ a.scheduled_at

instance : DecidableRel runDescOrder := fun a b =>
  inferInstanceAs (Decidable (b.scheduled_at ≤ a.scheduled_at))

/-- `list_job_runs` (`src/api/app/routers/scheduler.py` lines 157-176):
inner join to the owner's jobs, optional filters (Python truthiness: an
empty status string applies no filter), ordered by `scheduled_at` descending. -/
def list_job_runs (db : DB) (status : Option String)
    (from_ts to_ts : Option Int) (user_id : Nat) : List SchedulerJobRun :=
  let q0 : List SchedulerJobRun := db.runs.filter (fun r =>
    match db.jobs.find? (fun j => j.id == r.job_id) with
    | some j => j.user_id == user_id
    | none => false)
  let q1 : List SchedulerJobRun := match status with
    | some s => if s == "" then q0 else q0.filter (fun r => r.status == s)
    | none => q0
  let q2 : List SchedulerJobRun := match from_ts with
    | some f => q1.filter (fun r => decide (f ≤ r.scheduled_at))
    | none => q1
  let q3 : List SchedulerJobRun := match to_ts with
    | some t => q2.filter (fun r => decide (r.scheduled_at ≤ t))
    | none => q2
  q3.insertionSort runDescOrder

/-- The `ConfirmationCreate` request model (`src/api/app/routers/scheduler.py`). -/
structure ConfirmationCreate where
  job_run_id : Nat
  action : String
  idempotency_key : String
  payload : Option String
deriving Repr, DecidableEq

/-- The if/elif chain of `create_confirmation` mapping an action to the run's
new status (`src/api/app/routers/scheduler.py` lines 212-219); an action
outside the four branches leaves the status unchanged. -/
def confirmed_status (action : String) (old : String) : String :=
  if action == "complete" then "confirmed"
  else if action == "skip" then "skipped"
  else if action == "snooze" then "snoozed"
  else if action == "cancel" then "cancelled"
  else old

/-- The duplicate lookup of `create_confirmation` (lines 189-196): the
existing Confirmation for `(job_run_id, idempotency_key)`, if any. -/
def find_confirmation (db : DB) (rid : Nat) (key : String) :
    Option SchedulerConfirmation :=
  db.confirmations.find? (fun c =>
    c.job_run_id == rid && c.idempotency_key == key)

/-- The ORM mutation `run.status = ...; run.updated_at = now` of
`create_confirmation`, as the row function applied to the runs table. -/
def apply_confirmation_status (action : String) (now : Int) (rid : Nat)
    (r : SchedulerJobRun) : SchedulerJobRun :=
  if r.id == rid then
    { r with status := confirmed_status action r.status, updated_at := now }
  else r

/-- The Confirmation row inserted by `create_confirmation` (lines 200-210). -/
def new_confirmation (db : DB) (p : ConfirmationCreate) (now : Int) :
    SchedulerConfirmation :=
  { id := db.nextConfId, job_run_id := p.job_run_id, action := p.action,
    confirmed_at := now, idempotency_key := p.idempotency_key,
    payload := p.payload, created_at := now, updated_at := now }

/-- The committed state after `create_confirmation` inserts a new
Confirmation for `run` and transitions the run's status. -/
def confirmation_insert (db : DB) (p : ConfirmationCreate)
    (run : SchedulerJobRun) (now : Int) : DB :=
  { db with
    confirmations := db.confirmations ++ [new_confirmation db p now],
    runs := db.runs.map (apply_confirmation_status p.action now run.id),
    nextConfId := db.nextConfId + 1 }

/-- `create_confirmation` (`src/api/app/routers/scheduler.py` lines 179-224):
validate the action, resolve the owned run, return the existing Confirmation
for `(job_run_id, idempotency_key)` unchanged if one exists, otherwise insert
a new Confirmation and update the run's status. -/
def create_confirmation (db : DB) (p : ConfirmationCreate) (user_id : Nat)
    (now : Int) : Except HTTPError (SchedulerConfirmation × DB) :=
  if p.action ∉ (["complete", "skip", "snooze", "cancel"] : List String) then
    .error ⟨422, "invalid_action"⟩
  else
    match require_job_run db p.job_run_id user_id with
    | .error e => .error e
    | .ok run =>
      match find_confirmation db p.job_run_id p.idempotency_key with
      | some existing => .ok (existing, db)
      | none =>
        .ok (new_confirmation db p now, confirmation_insert db p run now)

/-! ## The scheduler service (`src/api/app/tasks/scheduler_service.py`) -/

/-- Modelled from the spec: the third-party `apscheduler.triggers.cron.CronTrigger`
is not part of the repository.  The spec describes it as "returning the
smallest valid fire time strictly after `after`"; we keep only its
`get_next_fire_time(prev, prev)` function, which may also report no further
occurrence. -/
structure CronTrigger where
  next : Int → Option Int

/-- Modelled from the spec: `CronTrigger.from_crontab` parses a 5-field
crontab expression and raises `ValueError` on an unparseable one (spec: "an
unparseable cron expression is a permanent configuration fault").  The raise
becomes `Except.error`. -/
structure CronLib where
  from_crontab : String → Except String CronTrigger

/-- Python's `str.strip()` on the character sequence. -/
def py_strip (cs : List Char) : List Char :=
  ((cs.dropWhile Char.isWhitespace).reverse.dropWhile Char.isWhitespace).reverse

/-- `_parse_cron_rule` (`scheduler_service.py` lines 52-64): strip the rule,
recognise the `cron:`/`cron ` tags, and hand the expression (the part after
the first separator, stripped) to the library parser; a non-cron rule yields
no trigger.  The library's `ValueError` propagates (the source has no
try/except here). -/
def parse_cron_rule (lib : CronLib) (rule : String) :
    Except String (Option CronTrigger) :=
  let cs := py_strip rule.data
  if ("cron:".data).isPrefixOf cs then
    let expr := py_strip (cs.drop 5)
    if expr.isEmpty then .ok none
    else (lib.from_crontab (String.mk expr)).map (fun t => some t)
  else if ("cron ".data).isPrefixOf cs then
    let expr := py_strip (cs.drop 5)
    if expr.isEmpty then .ok none
    else (lib.from_crontab (String.mk expr)).map (fun t => some t)
  else .ok none

/-- The run-with-largest-`scheduled_at` query of `_ensure_job_runs`
(`ORDER BY scheduled_at DESC ... first()`). -/
def last_run_of (runs : List SchedulerJobRun) (jid : Nat) :
    Option SchedulerJobRun :=
  runs.foldl (fun acc r =>
    if r.job_id == jid then
      match acc with
      | none => some r
      | some best => if best.scheduled_at < r.scheduled_at then some r else acc
    else acc) none

/-- The while loop of `_ensure_job_runs` (lines 92-106): successive fire
times after `prev` that are ≤ `now`, capped at `fuel` (the source calls it
with the hard cap 100). -/
def catch_up_times (next : Int → Option Int) (now : Int) :
    Nat → Int → List Int
  | 0, _ => []
  | fuel + 1, prev =>
    match next prev with
    | none => []
    | some t =>
      if t ≤ now then t :: catch_up_times next now fuel t else []

/-- A fresh pending `SchedulerJobRun` row as built by `_ensure_job_runs`. -/
def mk_run (rid : Nat) (jid : Nat) (t : Int) (now : Int) : SchedulerJobRun :=
  { id := rid, job_id := jid, period_key := period_key t, scheduled_at := t,
    sent_at := none, status := "pending", created_at := now, updated_at := now }

/-- Append one pending run per scheduled time, drawing autoincrement ids. -/
def add_runs (db : DB) (jid : Nat) (ts : List Int) (now : Int) : DB :=
  ts.foldl (fun d t =>
    { d with runs := d.runs ++ [mk_run d.nextRunId jid t now],
             nextRunId := d.nextRunId + 1 }) db

/-- `_ensure_job_runs` (`scheduler_service.py` lines 67-106): with no
existing run, create the first run when `first_run_at` is due; otherwise
parse the cron rule (a parse error propagates) and backfill up to 100
occurrences ≤ `now` after the most recently scheduled run. -/
def ensure_job_runs (lib : CronLib) (job : SchedulerJob) (db : DB)
    (now : Int) : Except String DB :=
  match last_run_of db.runs job.id with
  | none =>
    if job.first_run_at ≤ now then .ok (add_runs db job.id [job.first_run_at] now)
    else .ok db
  | some last =>
    match parse_cron_rule lib job.rule with
    | .error e => .error e
    | .ok none => .ok db
    | .ok (some trigger) =>
      .ok (add_runs db job.id
        (catch_up_times trigger.next now 100 last.scheduled_at) now)

/-- `ORDER BY id ASC` on jobs. -/
def jobIdOrder (a b : SchedulerJob) : Prop := a.id ≤ b.id

instance : DecidableRel jobIdOrder := fun a b =>
  inferInstanceAs (Decidable (a.id ≤ b.id))

/-- The first query of `_scan_and_notify` (lines 128-133): active telegram
jobs, ordered by id ascending. -/
def active_jobs (db : DB) : List SchedulerJob :=
  (db.jobs.filter (fun j =>
    j.status == "active" && j.channel == "telegram")).insertionSort jobIdOrder

/-- The materialization phase of `_scan_and_notify` (lines 134-136): run
`_ensure_job_runs` for each active job in turn; an exception in any job
aborts the whole phase (the source has no per-job try/except). -/
def ensure_all_runs (lib : CronLib) (db : DB) (now : Int) :
    Except String DB :=
  (active_jobs db).foldlM (fun d j => ensure_job_runs lib j d now) db

/-- One row of the scanner's three-way join. -/
abbrev Cand := SchedulerJobRun × SchedulerJob × User

/-- The per-run part of the candidate query (lines 138-148): inner joins to
the job and the user plus the WHERE filters. -/
def eligible_cand (db : DB) (r : SchedulerJobRun) : Option Cand :=
  match db.jobs.find? (fun j => j.id == r.job_id) with
  | none => none
  | some j =>
    match db.users.find? (fun u => u.id == j.user_id) with
    | none => none
    | some u =>
      if j.status == "active" && j.channel == "telegram" &&
          r.status == "pending" && u.telegram_user_id.isSome &&
          u.is_bot_enabled then
        some (r, j, u)
      else none

/-- All rows matching the candidate query's joins and filters. -/
def eligible_runs (db : DB) : List Cand :=
  db.runs.filterMap (eligible_cand db)

/-- `ORDER BY SchedulerJobRun.scheduled_at ASC` on candidates. -/
def candOrder (a b : Cand) : Prop := a.1.scheduled_at ≤ b.1.scheduled_at

instance : DecidableRel candOrder := fun a b =>
  inferInstanceAs (Decidable (a.1.scheduled_at ≤ b.1.scheduled_at))

/-- The candidate query of `_scan_and_notify` (lines 138-152): eligible rows
ordered by scheduled time ascending, capped at the batch size. -/
def candidates_query (db : DB) (batch : Nat) : List Cand :=
  ((eligible_runs db).insertionSort candOrder).take batch

/-- The notification body built in `_scan_and_notify` (lines 158-163);
datetime formatting is abstracted to `toString` of the minute number. -/
def notification_text (job : SchedulerJob) (run : SchedulerJobRun) : String :=
  "任务提醒：" ++ job.name ++ "\n任务说明：" ++
    (match job.description with
     | some d => if d == "" then "(无)" else d
     | none => "(无)") ++
  "\n计划时间(UTC)：" ++ toString run.scheduled_at ++
  "\n任务ID：" ++ toString job.id ++ " / 实例ID：" ++ toString run.id

/-- The notification body of one candidate row. -/
def cand_text (c : Cand) : String := notification_text c.2.1 c.1

/-- The ORM mutation `run.sent_at = now; run.status = "sent";
run.updated_at = now` as the row function applied to the runs table. -/
def mark_run_sent (now : Int) (rid : Nat) (r : SchedulerJobRun) :
    SchedulerJobRun :=
  if r.id == rid then
    { r with sent_at := some now, status := "sent", updated_at := now }
  else r

/-- The Reminder row appended for a successfully dispatched candidate. -/
def mk_reminder (nid : Nat) (now : Int) (c : Cand) : SchedulerReminder :=
  { id := nid, job_run_id := c.1.id, sent_at := now,
    payload := some (cand_text c), created_at := now, updated_at := now }

/-- The loop body of `_scan_and_notify` (lines 154-177) for one candidate:
skip it while not yet due, call the sink, and on success mark the run sent
and append the Reminder row. -/
def dispatch_step (sink : Int → String → Bool) (now : Int) (db : DB)
    (c : Cand) : DB :=
  let due_at := c.1.scheduled_at - c.2.1.advance_minutes
  if now < due_at then db
  else if sink (c.2.2.telegram_user_id.getD 0) (cand_text c) then
    { db with
      runs := db.runs.map (mark_run_sent now c.1.id),
      reminders := db.reminders ++ [mk_reminder db.nextRemId now c],
      nextRemId := db.nextRemId + 1 }
  else db

/-- The scan-and-dispatch phase of `_scan_and_notify` (lines 138-178),
committed as one transaction. -/
def dispatch_phase (sink : Int → String → Bool) (now : Int) (batch : Nat)
    (db : DB) : DB :=
  (candidates_query db batch).foldl (dispatch_step sink now) db

/-- `_scan_and_notify` (`scheduler_service.py` lines 124-180): materialize
runs for every active job, then scan and dispatch the due candidates.  An
exception escaping the materialization loop aborts the cycle (the only
handler in the source is the `finally` that closes the session). -/
def scan_and_notify (lib : CronLib) (sink : Int → String → Bool)
    (batch : Nat) (db : DB) (now : Int) : Except String DB :=
  match ensure_all_runs lib db now with
  | .error e => .error e
  | .ok db1 => .ok (dispatch_phase sink now batch db1)

/-! ## A closed form for the dispatch fold -/

/-- Whether a candidate is due and its sink call succeeds, i.e. whether the
loop body dispatches it. -/
def cand_sent (sink : Int → String → Bool) (now : Int) (c : Cand) : Bool :=
  decide (c.1.scheduled_at - c.2.1.advance_minutes ≤ now) &&
    sink (c.2.2.telegram_user_id.getD 0) (cand_text c)

/-- Run ids of the candidates the loop dispatches. -/
def sent_ids (sink : Int → String → Bool) (now : Int) (cs : List Cand) :
    List Nat :=
  (cs.filter (cand_sent sink now)).map (fun c => c.1.id)

/-- Marking as sent every run whose id is in `ids`. -/
def mark_runs_sent (now : Int) (ids : List Nat) (r : SchedulerJobRun) :
    SchedulerJobRun :=
  if ids.contains r.id then
    { r with sent_at := some now, status := "sent", updated_at := now }
  else r

/-- The Reminder rows appended by the loop, with sequential ids. -/
def new_reminders (sink : Int → String → Bool) (now : Int) :
    Nat → List Cand → List SchedulerReminder
  | _, [] => []
  | nid, c :: cs =>
    if cand_sent sink now c then
      mk_reminder nid now c :: new_reminders sink now (nid + 1) cs
    else new_reminders sink now nid cs

/-! ## Well-formedness of a database state -/

/-- Primary keys are unique and below the autoincrement counters. -/
def DBWF (db : DB) : Prop :=
  (db.runs.map (fun r => r.id)).Nodup ∧
  (db.jobs.map (fun j => j.id)).Nodup ∧
  (db.users.map (fun u => u.id)).Nodup ∧
  (∀ r ∈ db.runs, r.id < db.nextRunId) ∧
  (∀ j ∈ db.jobs, j.id < db.nextJobId)

instance (db : DB) : Decidable (DBWF db) := by
  unfold DBWF
  infer_instance

/-! ## Concrete fixtures for witnesses and counterexamples -/

/-- Digit-sequence parser for the toy cron library. -/
def toy_digits : List Char → Nat → Option Nat
  | [], acc => some acc
  | c :: rest, acc =>
    if c.isDigit then toy_digits rest (acc * 10 + (c.toNat - 48)) else none

/-- A toy cron library: the expression is a positive decimal period in
minutes; anything else is unparseable and raises. -/
def toyCron : CronLib :=
  ⟨fun e => match e.data with
    | [] => .error "invalid cron expression"
    | cs =>
      match toy_digits cs 0 with
      | some n =>
        if n > 0 then .ok ⟨fun t => some (t + n)⟩
        else .error "invalid cron expression"
      | none => .error "invalid cron expression"⟩

/-- A sink that always reports success. -/
def okSink : Int → String → Bool := fun _ _ => true

/-- A sink that always fails. -/
def failSink : Int → String → Bool := fun _ _ => false

def user1 : User := { id := 1, telegram_user_id := some 500, is_bot_enabled := true }

def user2 : User := { id := 2, telegram_user_id := some 600, is_bot_enabled := true }

def db0 : DB :=
  { users := [user1, user2], jobs := [], runs := [], confirmations := [],
    reminders := [], nextJobId := 1, nextRunId := 1, nextConfId := 1,
    nextRemId := 1 }

/-! ## Theorems for the claims -/

/-- `require_job_run` succeeds exactly when the run exists and its job
exists and is owned by the caller. -/
theorem require_job_run_eq_ok {db : DB} {rid uid : Nat}
    {run : SchedulerJobRun} :
    require_job_run db rid uid = .ok run ↔
      db.runs.find? (fun r => r.id == rid) = some run ∧
      ∃ job, db.jobs.find? (fun j => j.id == run.job_id) = some job ∧
        job.user_id = uid := by
  unfold require_job_run
  constructor
  · intro h
    split at h
    · exact absurd h (by simp)
    · next run' hfind =>
      split at h
      · exact absurd h (by simp)
      · next job hjob =>
        split at h
        · next huid =>
          cases h
          exact ⟨hfind, job, hjob, by simpa using huid⟩
        · exact absurd h (by simp)
  · rintro ⟨hfind, job, hjob, huid⟩
    rw [hfind]
    dsimp only
    rw [hjob]
    dsimp only
    rw [if_pos (by simpa using huid)]

/-- A job-creation request whose first run lies strictly in the future of
the creation instant `now = 0`. -/
def jcFuture : JobCreate :=
  { name := "water plants", description := none, rule := "cron:10",
    first_run_at := 100, advance_minutes := 0, channel := "telegram",
    status := "active" }

/-- The runs table after `create_job` on an empty database at `now = 0`. -/
def runsAfterCreateJobFuture : List SchedulerJobRun :=
  match create_job db0 jcFuture 1 0 with
  | .ok x => x.2.runs
  | .error _ => []

/-- C5, counterexample: at creation time `now = 0` the request's
`first_run_at = 100` is not yet due, yet `create_job` creates a JobRun —
refuting "when first_run_at lies in the future, no JobRun is created by
create_job". -/
theorem C5_counterexample :
    (0 : Int) < jcFuture.first_run_at ∧ runsAfterCreateJobFuture ≠ [] := by
  constructor
  · decide
  · decide

/-- C5 (amended): `create_job` validates the channel and status and then
always creates the Job together with its first pending JobRun scheduled at
`first_run_at`, whether or not `first_run_at` is already due. -/
theorem C5_create_job_always_creates_first_run
    (db : DB) (p : JobCreate) (uid : Nat) (now : Int)
    (hch : p.channel = "telegram")
    (hst : p.status ∈ (["active", "paused", "archived"] : List String)) :
    ∃ job db', create_job db p uid now = .ok (job, db') ∧
      job.user_id = uid ∧ job.status = p.status ∧
      db'.jobs = db.jobs ++ [job] ∧
      db'.runs = db.runs ++
        [{ id := db.nextRunId, job_id := job.id,
           period_key := period_key p.first_run_at,
           scheduled_at := p.first_run_at, sent_at := none,
           status := "pending", created_at := now, updated_at := now }] := by
  unfold create_job
  rw [if_neg (by simp [hch]), if_neg (by simp [hst])]
  exact ⟨_, _, rfl, rfl, rfl, rfl, rfl⟩

/-- C5 amended-claim witness: concrete instance of
`C5_create_job_always_creates_first_run`. -/
theorem C5_witness :
    ∃ job db', create_job db0 jcFuture 1 0 = .ok (job, db') ∧
      job.user_id = 1 ∧ job.status = jcFuture.status ∧
      db'.jobs = db0.jobs ++ [job] ∧
      db'.runs = db0.runs ++
        [{ id := db0.nextRunId, job_id := job.id,
           period_key := period_key jcFuture.first_run_at,
           scheduled_at := jcFuture.first_run_at, sent_at := none,
           status := "pending", created_at := 0, updated_at := 0 }] :=
  C5_create_job_always_creates_first_run db0 jcFuture 1 0 (by decide) (by decide)

/-- C9: with a valid action, `create_confirmation` fails with the one
error value `404 job_run_not_found` both when the run id does not exist and
when the run's parent job does not belong to the caller (or is missing), so
absence and lack of ownership are indistinguishable to the caller. -/
theorem C9_not_found_not_owned_same_error
    (db : DB) (p : ConfirmationCreate) (uid : Nat) (now : Int)
    (hact : p.action ∈ (["complete", "skip", "snooze", "cancel"] : List String))
    (h : db.runs.find? (fun r => r.id == p.job_run_id) = none ∨
      ∃ run, db.runs.find? (fun r => r.id == p.job_run_id) = some run ∧
        ∀ job, db.jobs.find? (fun j => j.id == run.job_id) = some job →
          job.user_id ≠ uid) :
    create_confirmation db p uid now = .error ⟨404, "job_run_not_found"⟩ := by
  have hreq : require_job_run db p.job_run_id uid =
      .error ⟨404, "job_run_not_found"⟩ := by
    unfold require_job_run
    rcases h with hnone | ⟨run, hfind, hjob⟩
    · rw [hnone]
    · rw [hfind]
      dsimp only
      cases hj : db.jobs.find? (fun j => j.id == run.job_id) with
      | none => rfl
      | some job =>
        dsimp only
        rw [if_neg (by simpa using hjob job hj)]
  unfold create_confirmation
  rw [if_neg (by simp [hact]), hreq]

/-- The single run of `dbC9`. -/
def runC9 : SchedulerJobRun :=
  { id := 1, job_id := 1, period_key := 0, scheduled_at := 0,
    sent_at := none, status := "pending", created_at := 0, updated_at := 0 }

/-- A database for the C9 witness: run 1 belongs to a job owned by user 2,
and run 7 does not exist. -/
def dbC9 : DB :=
  { users := [user1, user2],
    jobs := [{ id := 1, user_id := 2, name := "j", description := none,
               rule := "cron:10", first_run_at := 0, advance_minutes := 0,
               channel := "telegram", status := "active", created_at := 0,
               updated_at := 0 }],
    runs := [runC9],
    confirmations := [], reminders := [],
    nextJobId := 2, nextRunId := 2, nextConfId := 1, nextRemId := 1 }

/-- C9 witness: user 1 confirming the missing run 7 and user 1 confirming
user 2's run 1 both yield the identical 404 error. -/
theorem C9_witness :
    create_confirmation dbC9
        { job_run_id := 7, action := "complete", idempotency_key := "k",
          payload := none } 1 0 = .error ⟨404, "job_run_not_found"⟩ ∧
    create_confirmation dbC9
        { job_run_id := 1, action := "complete", idempotency_key := "k",
          payload := none } 1 0 = .error ⟨404, "job_run_not_found"⟩ :=
  ⟨C9_not_found_not_owned_same_error dbC9 _ 1 0 (by decide)
      (Or.inl (by decide)),
    C9_not_found_not_owned_same_error dbC9 _ 1 0 (by decide)
      (Or.inr ⟨runC9, by decide, by decide⟩)⟩

/-- Looking a run up by primary key commutes with an id-preserving row
update of the runs table. -/
theorem find?_id_map (runs : List SchedulerJobRun)
    (g : SchedulerJobRun → SchedulerJobRun)
    (hid : ∀ r, (g r).id = r.id) (k : Nat) :
    (runs.map g).find? (fun r => r.id == k) =
      (runs.find? (fun r => r.id == k)).map g := by
  have hp : ((fun r : SchedulerJobRun => r.id == k) ∘ g) =
      (fun r : SchedulerJobRun => r.id == k) := funext fun r => by
    simp [Function.comp, hid]
  rw [List.find?_map, hp]

/-- The confirmation row update keeps the run's primary key. -/
theorem apply_confirmation_status_id (a : String) (now : Int) (rid : Nat)
    (r : SchedulerJobRun) :
    (apply_confirmation_status a now rid r).id = r.id := by
  unfold apply_confirmation_status
  split <;> rfl

/-- The confirmation row update keeps the run's job reference. -/
theorem apply_confirmation_status_job_id (a : String) (now : Int) (rid : Nat)
    (r : SchedulerJobRun) :
    (apply_confirmation_status a now rid r).job_id = r.job_id := by
  unfold apply_confirmation_status
  split <;> rfl

/-- After inserting a fresh Confirmation for a pair that had none, the
duplicate lookup for that pair finds exactly the inserted row. -/
theorem find_confirmation_insert (db : DB) (p : ConfirmationCreate)
    (run : SchedulerJobRun) (now : Int)
    (hex : find_confirmation db p.job_run_id p.idempotency_key = none) :
    find_confirmation (confirmation_insert db p run now) p.job_run_id
      p.idempotency_key = some (new_confirmation db p now) := by
  unfold find_confirmation confirmation_insert at *
  dsimp only
  rw [List.find?_append, hex]
  simp [new_confirmation]

/-- C2: once `create_confirmation` has succeeded for
`(job_run_id, idempotency_key)`, any later call by the owning user with the
same pair returns the very Confirmation of the first call and leaves the
database untouched: no second row, no error, no further status change. -/
theorem C2_confirmation_idempotent
    (db : DB) (p p2 : ConfirmationCreate) (uid : Nat) (now now2 : Int)
    (c : SchedulerConfirmation) (db' : DB)
    (h1 : create_confirmation db p uid now = .ok (c, db'))
    (hrid : p2.job_run_id = p.job_run_id)
    (hkey : p2.idempotency_key = p.idempotency_key)
    (hact : p2.action ∈ (["complete", "skip", "snooze", "cancel"] : List String)) :
    create_confirmation db' p2 uid now2 = .ok (c, db') := by
  unfold create_confirmation at h1
  by_cases ha : p.action ∈ (["complete", "skip", "snooze", "cancel"] : List String)
  case neg =>
    rw [if_pos ha] at h1
    exact absurd h1 (by simp)
  rw [if_neg (not_not_intro ha)] at h1
  cases hreq : require_job_run db p.job_run_id uid with
  | error e =>
    rw [hreq] at h1
    exact absurd h1 (by simp)
  | ok run =>
    rw [hreq] at h1
    dsimp only at h1
    obtain ⟨hfind, job, hjob, huid⟩ := require_job_run_eq_ok.mp hreq
    cases hex : find_confirmation db p.job_run_id p.idempotency_key with
    | some existing =>
      rw [hex] at h1
      dsimp only at h1
      cases h1
      unfold create_confirmation
      rw [if_neg (not_not_intro hact),
        show require_job_run db p2.job_run_id uid = .ok run by
          rw [hrid]; exact hreq]
      dsimp only
      rw [show find_confirmation db p2.job_run_id p2.idempotency_key =
          some c by rw [hrid, hkey]; exact hex]
    | none =>
      rw [hex] at h1
      dsimp only at h1
      cases h1
      unfold create_confirmation
      rw [if_neg (not_not_intro hact)]
      have hreq2 : require_job_run (confirmation_insert db p run now)
          p2.job_run_id uid =
          .ok (apply_confirmation_status p.action now run.id run) := by
        refine require_job_run_eq_ok.mpr ⟨?_, job, ?_, huid⟩
        · show (db.runs.map
              (apply_confirmation_status p.action now run.id)).find?
              (fun r => r.id == p2.job_run_id) = _
          rw [hrid, find?_id_map db.runs _
            (fun r => apply_confirmation_status_id p.action now run.id r)
            p.job_run_id, hfind]
          rfl
        · show db.jobs.find? (fun j =>
              j.id == (apply_confirmation_status p.action now run.id
                run).job_id) = some job
          rw [apply_confirmation_status_job_id]
          exact hjob
      rw [hreq2]
      dsimp only
      rw [show find_confirmation (confirmation_insert db p run now)
          p2.job_run_id p2.idempotency_key =
          some (new_confirmation db p now) by
        rw [hrid, hkey]
        exact find_confirmation_insert db p run now hex]

/-- A database owned by user 1 with one pending run, for concrete calls. -/
def dbOwned : DB :=
  { users := [user1, user2],
    jobs := [{ id := 1, user_id := 1, name := "j", description := none,
               rule := "cron:10", first_run_at := 0, advance_minutes := 0,
               channel := "telegram", status := "active", created_at := 0,
               updated_at := 0 }],
    runs := [runC9],
    confirmations := [], reminders := [],
    nextJobId := 2, nextRunId := 2, nextConfId := 1, nextRemId := 1 }

/-- The confirmation request used in the C2 witness. -/
def pC2 : ConfirmationCreate :=
  { job_run_id := 1, action := "complete", idempotency_key := "k1",
    payload := none }

/-- C2 witness: after a successful first confirmation of run 1, repeating
the call with the same `(run, idempotency_key)` returns the first call's
Confirmation and leaves the state unchanged. -/
theorem C2_witness :
    create_confirmation (confirmation_insert dbOwned pC2 runC9 10) pC2 1 20 =
      .ok (new_confirmation dbOwned pC2 10,
           confirmation_insert dbOwned pC2 runC9 10) :=
  C2_confirmation_idempotent dbOwned pC2 pC2 1 10 20 _ _ rfl rfl rfl
    (by decide)

/-- With unique keys, a key lookup returns exactly the member carrying that
key. -/
theorem find?_key_eq_some {α : Type} (key : α → Nat) {l : List α}
    (hnd : (l.map key).Nodup) {x : α} (hx : x ∈ l) {k : Nat}
    (hk : key x = k) :
    l.find? (fun y => key y == k) = some x := by
  cases hf : l.find? (fun y => key y == k) with
  | none =>
    rw [List.find?_eq_none] at hf
    exact absurd (by simpa using hk) (by simpa using hf x hx)
  | some y =>
    have hy := List.mem_of_find?_eq_some hf
    have hp : key y = k := by simpa using List.find?_some hf
    rw [List.inj_on_of_nodup_map hnd hy hx (by rw [hp, hk])]

/-- The ownership filter of `list_job_runs` holds exactly when some job of
the table is the run's parent and is owned by the caller (given unique job
ids). -/
theorem owner_filter_iff (db : DB) (uid : Nat)
    (hnd : (db.jobs.map (fun j => j.id)).Nodup) (r : SchedulerJobRun) :
    (match db.jobs.find? (fun j => j.id == r.job_id) with
      | some j => j.user_id == uid
      | none => false) = true ↔
      ∃ j ∈ db.jobs, j.id = r.job_id ∧ j.user_id = uid := by
  constructor
  · intro h
    cases hf : db.jobs.find? (fun j => j.id == r.job_id) with
    | none => rw [hf] at h; exact absurd h (by simp)
    | some j =>
      rw [hf] at h
      exact ⟨j, List.mem_of_find?_eq_some hf,
        by simpa using List.find?_some hf, by simpa using h⟩
  · rintro ⟨j, hmem, hid, huid⟩
    rw [find?_key_eq_some (fun j => j.id) hnd hmem hid]
    simpa using huid

instance : IsTotal SchedulerJobRun runDescOrder :=
  ⟨fun a b => le_total b.scheduled_at a.scheduled_at⟩

instance : IsTrans SchedulerJobRun runDescOrder :=
  ⟨fun _ _ _ h1 h2 => le_trans h2 h1⟩

/-- C10: `list_job_runs` returns exactly the runs whose parent job belongs
to the requesting user, filtered by exact status equality and the inclusive
`from`/`to` bounds when those parameters are given (a given status is a
non-empty string; Python treats an empty one as absent), ordered by
`scheduled_at` descending. -/
theorem C10_list_job_runs_correct
    (db : DB) (status : Option String) (from_ts to_ts : Option Int)
    (uid : Nat) (hnd : (db.jobs.map (fun j => j.id)).Nodup)
    (hstat : status ≠ some "") :
    (∀ r, r ∈ list_job_runs db status from_ts to_ts uid ↔
      (r ∈ db.runs ∧
       (∃ j ∈ db.jobs, j.id = r.job_id ∧ j.user_id = uid) ∧
       (∀ s, status = some s → r.status = s) ∧
       (∀ f, from_ts = some f → f ≤ r.scheduled_at) ∧
       (∀ t, to_ts = some t → r.scheduled_at ≤ t))) ∧
    (list_job_runs db status from_ts to_ts uid).Sorted runDescOrder := by
  constructor
  · intro r
    unfold list_job_runs
    rw [List.mem_insertionSort]
    cases status with
    | none =>
      cases from_ts with
      | none =>
        cases to_ts with
        | none =>
          dsimp only
          simp only [List.mem_filter, owner_filter_iff db uid hnd r]
          constructor
          · rintro ⟨hm, ho⟩
            exact ⟨hm, ho, by simp, by simp, by simp⟩
          · rintro ⟨hm, ho, -, -, -⟩
            exact ⟨hm, ho⟩
        | some t =>
          dsimp only
          simp only [List.mem_filter, owner_filter_iff db uid hnd r,
            decide_eq_true_eq]
          constructor
          · rintro ⟨⟨hm, ho⟩, hle⟩
            exact ⟨hm, ho, by simp, by simp,
              fun t' ht' => by cases ht'; exact hle⟩
          · rintro ⟨hm, ho, -, -, hto⟩
            exact ⟨⟨hm, ho⟩, hto t rfl⟩
      | some f =>
        cases to_ts with
        | none =>
          dsimp only
          simp only [List.mem_filter, owner_filter_iff db uid hnd r,
            decide_eq_true_eq]
          constructor
          · rintro ⟨⟨hm, ho⟩, hle⟩
            exact ⟨hm, ho, by simp,
              fun f' hf' => by cases hf'; exact hle, by simp⟩
          · rintro ⟨hm, ho, -, hfrom, -⟩
            exact ⟨⟨hm, ho⟩, hfrom f rfl⟩
        | some t =>
          dsimp only
          simp only [List.mem_filter, owner_filter_iff db uid hnd r,
            decide_eq_true_eq]
          constructor
          · rintro ⟨⟨⟨hm, ho⟩, hf⟩, ht⟩
            exact ⟨hm, ho, by simp,
              fun f' hf' => by cases hf'; exact hf,
              fun t' ht' => by cases ht'; exact ht⟩
          · rintro ⟨hm, ho, -, hfrom, hto⟩
            exact ⟨⟨⟨hm, ho⟩, hfrom f rfl⟩, hto t rfl⟩
    | some s =>
      have hs : ¬((s == "") = true) := by
        simpa using fun h => hstat (by rw [h])
      cases from_ts with
      | none =>
        cases to_ts with
        | none =>
          dsimp only
          rw [if_neg hs]
          simp only [List.mem_filter, owner_filter_iff db uid hnd r,
            beq_iff_eq]
          constructor
          · rintro ⟨⟨hm, ho⟩, hst⟩
            exact ⟨hm, ho, fun s' hs' => by cases hs'; exact hst,
              by simp, by simp⟩
          · rintro ⟨hm, ho, hstat', -, -⟩
            exact ⟨⟨hm, ho⟩, hstat' s rfl⟩
        | some t =>
          dsimp only
          rw [if_neg hs]
          simp only [List.mem_filter, owner_filter_iff db uid hnd r,
            beq_iff_eq, decide_eq_true_eq]
          constructor
          · rintro ⟨⟨⟨hm, ho⟩, hst⟩, ht⟩
            exact ⟨hm, ho, fun s' hs' => by cases hs'; exact hst,
              by simp, fun t' ht' => by cases ht'; exact ht⟩
          · rintro ⟨hm, ho, hstat', -, hto⟩
            exact ⟨⟨⟨hm, ho⟩, hstat' s rfl⟩, hto t rfl⟩
      | some f =>
        cases to_ts with
        | none =>
          dsimp only
          rw [if_neg hs]
          simp only [List.mem_filter, owner_filter_iff db uid hnd r,
            beq_iff_eq, decide_eq_true_eq]
          constructor
          · rintro ⟨⟨⟨hm, ho⟩, hst⟩, hf⟩
            exact ⟨hm, ho, fun s' hs' => by cases hs'; exact hst,
              fun f' hf' => by cases hf'; exact hf, by simp⟩
          · rintro ⟨hm, ho, hstat', hfrom, -⟩
            exact ⟨⟨⟨hm, ho⟩, hstat' s rfl⟩, hfrom f rfl⟩
        | some t =>
          dsimp only
          rw [if_neg hs]
          simp only [List.mem_filter, owner_filter_iff db uid hnd r,
            beq_iff_eq, decide_eq_true_eq]
          constructor
          · rintro ⟨⟨⟨⟨hm, ho⟩, hst⟩, hf⟩, ht⟩
            exact ⟨hm, ho, fun s' hs' => by cases hs'; exact hst,
              fun f' hf' => by cases hf'; exact hf,
              fun t' ht' => by cases ht'; exact ht⟩
          · rintro ⟨hm, ho, hstat', hfrom, hto⟩
            exact ⟨⟨⟨⟨hm, ho⟩, hstat' s rfl⟩, hfrom f rfl⟩, hto t rfl⟩
  · exact List.sorted_insertionSort runDescOrder _

/-- C10 witness: a concrete instance of `C10_list_job_runs_correct`
evaluated at run 1 of the single-owner database. -/
theorem C10_witness :
    (runC9 ∈ list_job_runs dbOwned (some "pending") (some (-5)) (some 5) 1 ↔
      (runC9 ∈ dbOwned.runs ∧
       (∃ j ∈ dbOwned.jobs, j.id = runC9.job_id ∧ j.user_id = 1) ∧
       (∀ s, (some "pending" : Option String) = some s → runC9.status = s) ∧
       (∀ f, (some (-5) : Option Int) = some f → f ≤ runC9.scheduled_at) ∧
       (∀ t, (some (5) : Option Int) = some t → runC9.scheduled_at ≤ t))) :=
  (C10_list_job_runs_correct dbOwned (some "pending") (some (-5)) (some 5) 1
    (by decide) (by decide)).1 runC9

/-- An active telegram job whose cron expression the parser rejects. -/
def jobBadCron : SchedulerJob :=
  { id := 1, user_id := 1, name := "bad", description := none,
    rule := "cron:bad", first_run_at := 0, advance_minutes := 0,
    channel := "telegram", status := "active", created_at := 0,
    updated_at := 0 }

/-- An active telegram job with a valid every-10-minutes cron rule. -/
def jobGoodCron : SchedulerJob :=
  { id := 2, user_id := 1, name := "good", description := none,
    rule := "cron:10", first_run_at := 0, advance_minutes := 0,
    channel := "telegram", status := "active", created_at := 0,
    updated_at := 0 }

/-- The existing run of the bad-rule job (so materialization reaches the
cron parser). -/
def runOfBadJob : SchedulerJobRun :=
  { id := 1, job_id := 1, period_key := 0, scheduled_at := 0,
    sent_at := none, status := "pending", created_at := 0, updated_at := 0 }

/-- The pending, already due run of the good job. -/
def runOfGoodJob : SchedulerJobRun :=
  { id := 2, job_id := 2, period_key := 0, scheduled_at := 0,
    sent_at := none, status := "pending", created_at := 0, updated_at := 0 }

/-- Both jobs together: the bad one sorts first (id ascending). -/
def dbBadAndGood : DB :=
  { users := [user1], jobs := [jobBadCron, jobGoodCron],
    runs := [runOfBadJob, runOfGoodJob], confirmations := [],
    reminders := [], nextJobId := 3, nextRunId := 3, nextConfId := 1,
    nextRemId := 1 }

/-- The same state with the bad job removed. -/
def dbGoodOnly : DB :=
  { users := [user1], jobs := [jobGoodCron], runs := [runOfGoodJob],
    confirmations := [], reminders := [], nextJobId := 3, nextRunId := 3,
    nextConfId := 1, nextRemId := 1 }

/-- C1: one job with an unparseable cron rule makes the whole scheduler
cycle raise — `_scan_and_notify` propagates the parser's `ValueError`, so
the other active job's due run is neither materialized nor dispatched in
that cycle; removing the bad job, the very same run is dispatched.  This
contradicts the claim that the bad job alone is skipped. -/
theorem C1_bad_cron_aborts_whole_cycle :
    scan_and_notify toyCron okSink 100 dbBadAndGood 50 =
      .error "invalid cron expression" ∧
    (match scan_and_notify toyCron okSink 100 dbGoodOnly 50 with
      | .ok db' => db'.runs.any (fun r => r.id == 2 && r.status == "sent")
      | .error _ => false) = true := by
  constructor
  · rfl
  · rfl

/-- Marking a run sent keeps its primary key. -/
theorem mark_run_sent_id (now : Int) (rid : Nat) (r : SchedulerJobRun) :
    (mark_run_sent now rid r).id = r.id := by
  unfold mark_run_sent
  split <;> rfl

/-- Marking runs sent keeps their primary keys. -/
theorem mark_runs_sent_id (now : Int) (ids : List Nat) (r : SchedulerJobRun) :
    (mark_runs_sent now ids r).id = r.id := by
  unfold mark_runs_sent
  split <;> rfl

/-- A one-id mark followed by a set mark is the mark of the extended set. -/
theorem mark_run_then_runs (now : Int) (i : Nat) (ids : List Nat)
    (r : SchedulerJobRun) :
    mark_runs_sent now ids (mark_run_sent now i r) =
      mark_runs_sent now (i :: ids) r := by
  unfold mark_run_sent mark_runs_sent
  by_cases h : r.id = i <;> by_cases h2 : r.id ∈ ids <;> simp [h, h2]

/-- A candidate the loop does not dispatch leaves the session unchanged. -/
theorem dispatch_step_of_not_sent {sink : Int → String → Bool} {now : Int}
    {c : Cand} (db : DB) (h : cand_sent sink now c = false) :
    dispatch_step sink now db c = db := by
  unfold cand_sent at h
  unfold dispatch_step
  by_cases hd : now < c.1.scheduled_at - c.2.1.advance_minutes
  · rw [if_pos hd]
  · rw [if_neg hd]
    have hdec : decide (c.1.scheduled_at - c.2.1.advance_minutes ≤ now) =
        true := by simpa using not_lt.mp hd
    rw [hdec] at h
    simp only [Bool.true_and] at h
    rw [h]
    simp

/-- A dispatched candidate updates its run, appends its Reminder, and bumps
the reminder counter. -/
theorem dispatch_step_of_sent {sink : Int → String → Bool} {now : Int}
    {c : Cand} (db : DB) (h : cand_sent sink now c = true) :
    dispatch_step sink now db c =
      { db with
        runs := db.runs.map (mark_run_sent now c.1.id),
        reminders := db.reminders ++ [mk_reminder db.nextRemId now c],
        nextRemId := db.nextRemId + 1 } := by
  unfold cand_sent at h
  rw [Bool.and_eq_true] at h
  obtain ⟨hdue, hsink⟩ := h
  unfold dispatch_step
  rw [if_neg (not_lt.mpr (by simpa using hdue)), if_pos hsink]

/-- Closed form of the dispatch loop: runs marked sent for the dispatched
ids, reminders appended in order, the counter advanced, everything else
untouched. -/
theorem dispatch_foldl_spec (sink : Int → String → Bool) (now : Int) :
    ∀ (cs : List Cand) (db : DB),
      cs.foldl (dispatch_step sink now) db =
        { db with
          runs := db.runs.map (mark_runs_sent now (sent_ids sink now cs)),
          reminders := db.reminders ++
            new_reminders sink now db.nextRemId cs,
          nextRemId := db.nextRemId + cs.countP (cand_sent sink now) } := by
  intro cs
  induction cs with
  | nil =>
    intro db
    show db = _
    have h1 : db.runs.map (mark_runs_sent now (sent_ids sink now [])) =
        db.runs := by
      rw [show sent_ids sink now [] = [] from rfl]
      rw [List.map_congr_left (fun r _ => by
        unfold mark_runs_sent; simp : ∀ r ∈ db.runs,
          mark_runs_sent now [] r = r)]
      exact List.map_id _
    rw [h1, show new_reminders sink now db.nextRemId ([] : List Cand) = []
      from rfl, List.append_nil,
      show List.countP (cand_sent sink now) ([] : List Cand) = 0 from rfl,
      Nat.add_zero]
  | cons c cs ih =>
    intro db
    rw [List.foldl_cons]
    cases hs : cand_sent sink now c with
    | false =>
      rw [dispatch_step_of_not_sent db hs, ih db]
      simp [sent_ids, new_reminders, hs, List.filter_cons,
        List.countP_cons]
    | true =>
      rw [dispatch_step_of_sent db hs, ih _]
      have hruns : (db.runs.map (mark_run_sent now c.1.id)).map
          (mark_runs_sent now (sent_ids sink now cs)) =
          db.runs.map (mark_runs_sent now (sent_ids sink now (c :: cs))) := by
        rw [List.map_map]
        have hids : sent_ids sink now (c :: cs) =
            c.1.id :: sent_ids sink now cs := by
          simp [sent_ids, List.filter_cons, hs]
        rw [hids]
        exact List.map_congr_left (fun r _ =>
          mark_run_then_runs now c.1.id _ r)
      have hrem : (db.reminders ++ [mk_reminder db.nextRemId now c]) ++
          new_reminders sink now (db.nextRemId + 1) cs =
          db.reminders ++ new_reminders sink now db.nextRemId (c :: cs) := by
        rw [List.append_assoc]
        congr 1
        simp [new_reminders, hs]
      have hcnt : db.nextRemId + 1 + cs.countP (cand_sent sink now) =
          db.nextRemId + (c :: cs).countP (cand_sent sink now) := by
        rw [List.countP_cons]
        simp [hs]
        omega
      rw [hruns, hrem, hcnt]

/-! ## Observations on a database state -/

/-- Primary-key lookup of a run. -/
def find_run (db : DB) (rid : Nat) : Option SchedulerJobRun :=
  db.runs.find? (fun r => r.id == rid)

/-- The status of run `rid`, if the run exists. -/
def status_of (db : DB) (rid : Nat) : Option String :=
  (find_run db rid).map (fun r => r.status)

/-- The `sent_at` column of run `rid`, if the run exists. -/
def sent_at_of (db : DB) (rid : Nat) : Option (Option Int) :=
  (find_run db rid).map (fun r => r.sent_at)

/-- How many Reminder rows referencing `rid` the step from `db1` to `db2`
appended (the tables grow append-only). -/
def reminders_added (db1 db2 : DB) (rid : Nat) : Nat :=
  (db2.reminders.drop db1.reminders.length).countP
    (fun m => m.job_run_id == rid)

/-- A produced candidate's run component is the joined run itself. -/
theorem eligible_cand_fst {db : DB} {r : SchedulerJobRun} {c : Cand}
    (h : eligible_cand db r = some c) : c.1 = r := by
  unfold eligible_cand at h
  split at h
  · exact absurd h (by simp)
  · split at h
    · exact absurd h (by simp)
    · split at h
      · cases h
        rfl
      · exact absurd h (by simp)

/-- Unfolding of a successful candidate join at a given run. -/
theorem eligible_cand_eq_some {db : DB} {r : SchedulerJobRun}
    {j : SchedulerJob} {u : User} :
    eligible_cand db r = some (r, j, u) ↔
      db.jobs.find? (fun j' => j'.id == r.job_id) = some j ∧
      db.users.find? (fun u' => u'.id == j.user_id) = some u ∧
      j.status = "active" ∧ j.channel = "telegram" ∧
      r.status = "pending" ∧ u.telegram_user_id.isSome = true ∧
      u.is_bot_enabled = true := by
  constructor
  · intro h
    unfold eligible_cand at h
    split at h
    · exact absurd h (by simp)
    · next j0 hj0 =>
      split at h
      · exact absurd h (by simp)
      · next u0 hu0 =>
        split at h
        · next hcond =>
          cases h
          simp only [Bool.and_eq_true, beq_iff_eq] at hcond
          exact ⟨hj0, hu0, hcond.1.1.1.1, hcond.1.1.1.2, hcond.1.1.2,
            hcond.1.2, hcond.2⟩
        · exact absurd h (by simp)
  · rintro ⟨hj, hu, hjs, hjc, hrs, hut, hub⟩
    unfold eligible_cand
    rw [hj]
    dsimp only
    rw [hu]
    dsimp only
    rw [if_pos (by simp [hjs, hjc, hrs, hut, hub])]

/-- A member of the eligible join comes from its own run row. -/
theorem mem_eligible_runs_elim {db : DB} {c : Cand}
    (h : c ∈ eligible_runs db) :
    c.1 ∈ db.runs ∧ eligible_cand db c.1 = some c := by
  unfold eligible_runs at h
  obtain ⟨r, hr, he⟩ := List.mem_filterMap.mp h
  have hfst := eligible_cand_fst he
  rw [← hfst] at hr he
  exact ⟨hr, he⟩

/-- A member of the capped, sorted candidate query comes from its run row. -/
theorem mem_candidates_query {db : DB} {batch : Nat} {c : Cand}
    (h : c ∈ candidates_query db batch) :
    c.1 ∈ db.runs ∧ eligible_cand db c.1 = some c := by
  unfold candidates_query at h
  exact mem_eligible_runs_elim
    ((List.mem_insertionSort candOrder).mp (List.mem_of_mem_take h))

/-- The run ids of the eligible join are drawn without repetition from the
runs table. -/
theorem eligible_ids_sublist (db : DB) : ∀ (l : List SchedulerJobRun),
    ((l.filterMap (eligible_cand db)).map (fun c => c.1.id)).Sublist
      (l.map (fun r => r.id))
  | [] => List.Sublist.refl _
  | r :: l => by
    cases h : eligible_cand db r with
    | none =>
      rw [List.filterMap_cons_none h]
      exact (eligible_ids_sublist db l).cons _
    | some c =>
      rw [List.filterMap_cons_some h]
      rw [List.map_cons, List.map_cons, eligible_cand_fst h]
      exact (eligible_ids_sublist db l).cons₂ _

/-- With unique run ids, the candidate query never repeats a run. -/
theorem candidates_ids_nodup (db : DB) (batch : Nat)
    (hnd : (db.runs.map (fun r => r.id)).Nodup) :
    ((candidates_query db batch).map (fun c => c.1.id)).Nodup := by
  unfold candidates_query
  have h1 : (((eligible_runs db).insertionSort candOrder).map
      (fun c => c.1.id)).Nodup := by
    have hperm : List.Perm
        (((eligible_runs db).insertionSort candOrder).map
          (fun c => c.1.id))
        ((eligible_runs db).map (fun c => c.1.id)) :=
      List.Perm.map _ (List.perm_insertionSort candOrder _)
    exact hperm.nodup_iff.mpr
      ((eligible_ids_sublist db db.runs).nodup hnd)
  exact (List.Sublist.map (fun c : Cand => c.1.id)
    (List.take_sublist batch _)).nodup h1

/-- `dispatch_phase` in closed form. -/
theorem dispatch_phase_eq (sink : Int → String → Bool) (now : Int)
    (batch : Nat) (db : DB) :
    dispatch_phase sink now batch db =
      { db with
        runs := db.runs.map (mark_runs_sent now
          (sent_ids sink now (candidates_query db batch))),
        reminders := db.reminders ++
          new_reminders sink now db.nextRemId (candidates_query db batch),
        nextRemId := db.nextRemId +
          (candidates_query db batch).countP (cand_sent sink now) } :=
  dispatch_foldl_spec sink now (candidates_query db batch) db

/-- Run lookup after the dispatch phase. -/
theorem find_run_dispatch_phase (sink : Int → String → Bool) (now : Int)
    (batch : Nat) (db : DB) (rid : Nat) :
    find_run (dispatch_phase sink now batch db) rid =
      (find_run db rid).map (mark_runs_sent now
        (sent_ids sink now (candidates_query db batch))) := by
  rw [dispatch_phase_eq]
  unfold find_run
  dsimp only
  exact find?_id_map db.runs _ (fun r => mark_runs_sent_id now _ r) rid

/-- The appended Reminder rows reference the dispatched run ids, in order
and with multiplicity. -/
theorem new_reminders_count (sink : Int → String → Bool) (now : Int)
    (rid : Nat) :
    ∀ (nid : Nat) (cs : List Cand),
      (new_reminders sink now nid cs).countP
          (fun m => m.job_run_id == rid) =
        (sent_ids sink now cs).count rid := by
  intro nid cs
  induction cs generalizing nid with
  | nil => rfl
  | cons c cs ih =>
    cases hs : cand_sent sink now c with
    | false =>
      rw [show new_reminders sink now nid (c :: cs) =
          new_reminders sink now nid cs by simp [new_reminders, hs],
        show sent_ids sink now (c :: cs) = sent_ids sink now cs by
          simp [sent_ids, List.filter_cons, hs]]
      exact ih nid
    | true =>
      rw [show new_reminders sink now nid (c :: cs) =
          mk_reminder nid now c :: new_reminders sink now (nid + 1) cs by
          simp [new_reminders, hs],
        show sent_ids sink now (c :: cs) = c.1.id :: sent_ids sink now cs by
          simp [sent_ids, List.filter_cons, hs],
        List.countP_cons, List.count_cons, ih (nid + 1)]
      by_cases h : c.1.id = rid
      · simp [mk_reminder, h]
      · simp [mk_reminder, h, Ne.symm h]

/-- Reminders appended by the dispatch phase for a given run id, counted. -/
theorem reminders_added_dispatch_phase (sink : Int → String → Bool)
    (now : Int) (batch : Nat) (db : DB) (rid : Nat) :
    reminders_added db (dispatch_phase sink now batch db) rid =
      (sent_ids sink now (candidates_query db batch)).count rid := by
  rw [dispatch_phase_eq]
  unfold reminders_added
  dsimp only
  rw [List.drop_left]
  exact new_reminders_count sink now rid db.nextRemId _

/-- Membership in the dispatched id list. -/
theorem mem_sent_ids {sink : Int → String → Bool} {now : Int}
    {cs : List Cand} {rid : Nat} :
    rid ∈ sent_ids sink now cs ↔
      ∃ c ∈ cs, cand_sent sink now c = true ∧ c.1.id = rid := by
  unfold sent_ids
  constructor
  · intro h
    obtain ⟨c, hc, hid⟩ := List.mem_map.mp h
    obtain ⟨hcs, hsent⟩ := List.mem_filter.mp hc
    exact ⟨c, hcs, hsent, hid⟩
  · rintro ⟨c, hcs, hsent, hid⟩
    exact List.mem_map.mpr ⟨c, List.mem_filter.mpr ⟨hcs, hsent⟩, hid⟩

/-- With unique run ids, the dispatched id list has no repetition. -/
theorem sent_ids_nodup (sink : Int → String → Bool) (now : Int)
    (batch : Nat) (db : DB)
    (hnd : (db.runs.map (fun r => r.id)).Nodup) :
    (sent_ids sink now (candidates_query db batch)).Nodup := by
  unfold sent_ids
  exact (List.Sublist.map (fun c : Cand => c.1.id)
    (List.filter_sublist _)).nodup (candidates_ids_nodup db batch hnd)

/-- A dispatched run was pending, becomes sent, and its `sent_at` becomes
the cycle time. -/
theorem status_dispatch_of_mem
    (db : DB) (sink : Int → String → Bool) (now : Int) (batch : Nat)
    (rid : Nat) (hnd : (db.runs.map (fun r => r.id)).Nodup)
    (hmem : rid ∈ sent_ids sink now (candidates_query db batch)) :
    status_of db rid = some "pending" ∧
    status_of (dispatch_phase sink now batch db) rid = some "sent" ∧
    sent_at_of (dispatch_phase sink now batch db) rid = some (some now) := by
  obtain ⟨c, hc, hcs, hcid⟩ := mem_sent_ids.mp hmem
  obtain ⟨hcr, hce⟩ := mem_candidates_query hc
  rcases c with ⟨r, j, u⟩
  dsimp only at hcr hce hcid
  obtain ⟨-, -, -, -, hpend, -, -⟩ := eligible_cand_eq_some.mp hce
  have hfr : find_run db rid = some r := by
    unfold find_run
    exact find?_key_eq_some (fun r => r.id) hnd hcr hcid
  have hmark : mark_runs_sent now
      (sent_ids sink now (candidates_query db batch)) r =
      { r with sent_at := some now, status := "sent",
               updated_at := now } := by
    unfold mark_runs_sent
    rw [if_pos (by rw [hcid]; simpa using hmem)]
  have hfr2 : find_run (dispatch_phase sink now batch db) rid =
      some { r with sent_at := some now, status := "sent",
                    updated_at := now } := by
    rw [find_run_dispatch_phase, hfr, Option.map_some', hmark]
  refine ⟨?_, ?_, ?_⟩
  · unfold status_of
    rw [hfr, Option.map_some', hpend]
  · unfold status_of
    rw [hfr2]
    rfl
  · unfold sent_at_of
    rw [hfr2]
    rfl

/-- A run the phase does not dispatch keeps its status. -/
theorem status_dispatch_of_not_mem
    (db : DB) (sink : Int → String → Bool) (now : Int) (batch : Nat)
    (rid : Nat)
    (hmem : rid ∉ sent_ids sink now (candidates_query db batch)) :
    status_of (dispatch_phase sink now batch db) rid = status_of db rid := by
  unfold status_of
  rw [find_run_dispatch_phase]
  cases hfr : find_run db rid with
  | none => rfl
  | some r =>
    have hfr' := hfr
    unfold find_run at hfr'
    have hrid : r.id = rid := by simpa using List.find?_some hfr'
    simp only [Option.map_some']
    congr 1
    unfold mark_runs_sent
    rw [if_neg (by rw [hrid]; simpa using hmem)]

/-- C3: in one dispatch phase, a run transitions pending→sent exactly when
a Reminder row for it is appended; on that transition its `sent_at` is the
cycle time and exactly one Reminder is created; a run that does not make the
transition (in particular one that stays pending) gets no Reminder.  Both
effects live in the single state the phase commits. -/
theorem C3_dispatch_sent_reminder_pairing
    (db : DB) (sink : Int → String → Bool) (now : Int) (batch : Nat)
    (hnd : (db.runs.map (fun r => r.id)).Nodup) :
    ∀ rid : Nat,
      (status_of db rid = some "pending" ∧
       status_of (dispatch_phase sink now batch db) rid = some "sent" →
        sent_at_of (dispatch_phase sink now batch db) rid =
          some (some now) ∧
        reminders_added db (dispatch_phase sink now batch db) rid = 1) ∧
      (¬(status_of db rid = some "pending" ∧
         status_of (dispatch_phase sink now batch db) rid = some "sent") →
        reminders_added db (dispatch_phase sink now batch db) rid = 0) := by
  intro rid
  by_cases hmem : rid ∈ sent_ids sink now (candidates_query db batch)
  · obtain ⟨hst1, hst2, hsa⟩ :=
      status_dispatch_of_mem db sink now batch rid hnd hmem
    have hcount : reminders_added db (dispatch_phase sink now batch db)
        rid = 1 := by
      rw [reminders_added_dispatch_phase]
      exact List.count_eq_one_of_mem
        (sent_ids_nodup sink now batch db hnd) hmem
    exact ⟨fun _ => ⟨hsa, hcount⟩, fun hneg => absurd ⟨hst1, hst2⟩ hneg⟩
  · have hcount : reminders_added db (dispatch_phase sink now batch db)
        rid = 0 := by
      rw [reminders_added_dispatch_phase]
      exact List.count_eq_zero.mpr hmem
    have hsame := status_dispatch_of_not_mem db sink now batch rid hmem
    refine ⟨fun h => ?_, fun _ => hcount⟩
    rw [hsame, h.1] at h
    exact absurd h.2 (by simp)

/-- C3 witness: dispatching the due pending run 2 of the single-job state
sets `sent_at` to the cycle time and appends exactly one Reminder for it. -/
theorem C3_witness :
    sent_at_of (dispatch_phase okSink 0 100 dbGoodOnly) 2 =
      some (some 0) ∧
    reminders_added dbGoodOnly (dispatch_phase okSink 0 100 dbGoodOnly) 2 =
      1 :=
  (C3_dispatch_sent_reminder_pairing dbGoodOnly okSink 0 100
    (by decide) 2).1 ⟨by decide, by decide⟩

/-- The candidate join only reads the jobs and users tables. -/
theorem eligible_cand_congr (db db' : DB) (hj : db'.jobs = db.jobs)
    (hu : db'.users = db.users) (r : SchedulerJobRun) :
    eligible_cand db' r = eligible_cand db r := by
  unfold eligible_cand
  rw [hj, hu]

/-- C6: a candidate whose sink call fails is left untouched: its run row is
unchanged (still pending, `sent_at` unchanged), no Reminder row is appended
for it, and it still satisfies the scanner's candidate predicate for the
next cycle. -/
theorem C6_failed_dispatch_leaves_run_pending
    (db : DB) (sink : Int → String → Bool) (now : Int) (batch : Nat)
    (c : Cand)
    (hnd : (db.runs.map (fun r => r.id)).Nodup)
    (hc : c ∈ candidates_query db batch)
    (hfail : sink (c.2.2.telegram_user_id.getD 0) (cand_text c) = false) :
    find_run (dispatch_phase sink now batch db) c.1.id = some c.1 ∧
    c.1.status = "pending" ∧
    reminders_added db (dispatch_phase sink now batch db) c.1.id = 0 ∧
    c ∈ eligible_runs (dispatch_phase sink now batch db) := by
  have hsent : cand_sent sink now c = false := by
    unfold cand_sent
    rw [hfail]
    simp
  have hnotmem : c.1.id ∉ sent_ids sink now (candidates_query db batch) := by
    intro hmem
    obtain ⟨c', hc', hcs', hid'⟩ := mem_sent_ids.mp hmem
    have : c' = c :=
      List.inj_on_of_nodup_map (candidates_ids_nodup db batch hnd)
        hc' hc hid'
    rw [this, hsent] at hcs'
    exact absurd hcs' (by simp)
  obtain ⟨hcr, hce⟩ := mem_candidates_query hc
  have hfr : find_run db c.1.id = some c.1 := by
    unfold find_run
    exact find?_key_eq_some (fun r => r.id) hnd hcr rfl
  have hmark : mark_runs_sent now
      (sent_ids sink now (candidates_query db batch)) c.1 = c.1 := by
    unfold mark_runs_sent
    rw [if_neg (by simpa using hnotmem)]
  have hfr2 : find_run (dispatch_phase sink now batch db) c.1.id =
      some c.1 := by
    rw [find_run_dispatch_phase, hfr, Option.map_some', hmark]
  have hpend : c.1.status = "pending" := by
    obtain ⟨r, j, u⟩ := c
    exact (eligible_cand_eq_some.mp hce).2.2.2.2.1
  refine ⟨hfr2, hpend, ?_, ?_⟩
  · rw [reminders_added_dispatch_phase]
    exact List.count_eq_zero.mpr hnotmem
  · unfold eligible_runs
    refine List.mem_filterMap.mpr ⟨c.1, ?_, ?_⟩
    · rw [dispatch_phase_eq]
      show c.1 ∈ db.runs.map _
      exact List.mem_map.mpr ⟨c.1, hcr, hmark⟩
    · have hj : (dispatch_phase sink now batch db).jobs = db.jobs := by
        rw [dispatch_phase_eq]
      have hu : (dispatch_phase sink now batch db).users = db.users := by
        rw [dispatch_phase_eq]
      rw [eligible_cand_congr db (dispatch_phase sink now batch db) hj hu]
      exact hce

/-- C6 witness: with an always-failing sink, the due pending run 2 stays
exactly as it was, gains no Reminder, and is still a candidate. -/
theorem C6_witness :
    find_run (dispatch_phase failSink 0 100 dbGoodOnly)
      (runOfGoodJob, jobGoodCron, user1).1.id = some runOfGoodJob ∧
    (runOfGoodJob, jobGoodCron, user1).1.status = "pending" ∧
    reminders_added dbGoodOnly (dispatch_phase failSink 0 100 dbGoodOnly)
      (runOfGoodJob, jobGoodCron, user1).1.id = 0 ∧
    (runOfGoodJob, jobGoodCron, user1) ∈
      eligible_runs (dispatch_phase failSink 0 100 dbGoodOnly) :=
  C6_failed_dispatch_leaves_run_pending dbGoodOnly failSink 0 100
    (runOfGoodJob, jobGoodCron, user1) (by decide) (by decide) rfl

/-- The rows of the eligible join, characterised (unique job and user ids).
-/
theorem mem_eligible_runs_iff (db : DB)
    (hndj : (db.jobs.map (fun j => j.id)).Nodup)
    (hndu : (db.users.map (fun u => u.id)).Nodup)
    (r : SchedulerJobRun) (j : SchedulerJob) (u : User) :
    (r, j, u) ∈ eligible_runs db ↔
      r ∈ db.runs ∧ j ∈ db.jobs ∧ u ∈ db.users ∧
      j.id = r.job_id ∧ u.id = j.user_id ∧
      j.status = "active" ∧ j.channel = "telegram" ∧
      r.status = "pending" ∧ u.telegram_user_id.isSome = true ∧
      u.is_bot_enabled = true := by
  constructor
  · intro h
    obtain ⟨hr, hce⟩ := mem_eligible_runs_elim h
    obtain ⟨hj, hu, hjs, hjc, hrs, hut, hub⟩ := eligible_cand_eq_some.mp hce
    exact ⟨hr, List.mem_of_find?_eq_some hj, List.mem_of_find?_eq_some hu,
      by simpa using List.find?_some hj,
      by simpa using List.find?_some hu, hjs, hjc, hrs, hut, hub⟩
  · rintro ⟨hr, hjm, hum, hjid, huid, hjs, hjc, hrs, hut, hub⟩
    refine List.mem_filterMap.mpr ⟨r, hr, ?_⟩
    exact eligible_cand_eq_some.mpr
      ⟨find?_key_eq_some (fun j => j.id) hndj hjm hjid,
       find?_key_eq_some (fun u => u.id) hndu hum huid,
       hjs, hjc, hrs, hut, hub⟩

/-- The candidates that pass the loop's due check, i.e. for which the sink
is actually called. -/
def due_selection (db : DB) (now : Int) (batch : Nat) : List Cand :=
  (candidates_query db batch).filter (fun c =>
    decide (c.1.scheduled_at - c.2.1.advance_minutes ≤ now))

instance : IsTotal Cand candOrder :=
  ⟨fun a b => le_total a.1.scheduled_at b.1.scheduled_at⟩

instance : IsTrans Cand candOrder :=
  ⟨fun _ _ _ h1 h2 => le_trans h1 h2⟩

/-- An active zero-lead job whose next run is not yet due at `now = 10`. -/
def jobCrowdA : SchedulerJob :=
  { id := 5, user_id := 1, name := "a", description := none,
    rule := "cron:10", first_run_at := 0, advance_minutes := 0,
    channel := "telegram", status := "active", created_at := 0,
    updated_at := 0 }

/-- An active job with a 5-minute lead whose next run is due at `now = 10`.
-/
def jobCrowdB : SchedulerJob :=
  { id := 6, user_id := 1, name := "b", description := none,
    rule := "cron:10", first_run_at := 0, advance_minutes := 5,
    channel := "telegram", status := "active", created_at := 0,
    updated_at := 0 }

/-- The pending run of the zero-lead job, scheduled at 11 (due at 11). -/
def runCrowdA : SchedulerJobRun :=
  { id := 11, job_id := 5, period_key := 11, scheduled_at := 11,
    sent_at := none, status := "pending", created_at := 0, updated_at := 0 }

/-- The pending run of the 5-minute-lead job, scheduled at 12 (due at 7). -/
def runCrowdB : SchedulerJobRun :=
  { id := 12, job_id := 6, period_key := 12, scheduled_at := 12,
    sent_at := none, status := "pending", created_at := 0, updated_at := 0 }

/-- A state with both pending runs, where the earlier-scheduled one is not
yet due and the later-scheduled one is. -/
def dbCrowd : DB :=
  { users := [user1], jobs := [jobCrowdA, jobCrowdB],
    runs := [runCrowdA, runCrowdB], confirmations := [], reminders := [],
    nextJobId := 7, nextRunId := 13, nextConfId := 1, nextRemId := 1 }

/-- C4, counterexample: at `now = 10` with `batch = 1`, run 12 satisfies
every condition of the claim's selection predicate — active telegram job,
pending, eligible recipient, and `now ≥ scheduled_at − advance_minutes`
(12 − 5 = 7 ≤ 10) — yet nothing at all is selected for dispatch: the
`LIMIT` is applied before the due check, so the batch's single slot is
consumed by the earlier-scheduled, not-yet-due run 11.  This refutes the
claim's "selected if and only if". -/
theorem C4_counterexample :
    (runCrowdB ∈ dbCrowd.runs ∧ jobCrowdB ∈ dbCrowd.jobs ∧
     user1 ∈ dbCrowd.users ∧
     jobCrowdB.id = runCrowdB.job_id ∧ user1.id = jobCrowdB.user_id ∧
     jobCrowdB.status = "active" ∧ jobCrowdB.channel = "telegram" ∧
     runCrowdB.status = "pending" ∧
     user1.telegram_user_id.isSome = true ∧
     user1.is_bot_enabled = true ∧
     runCrowdB.scheduled_at - jobCrowdB.advance_minutes ≤ 10) ∧
    due_selection dbCrowd 10 1 = [] := by
  constructor
  · decide
  · decide

/-- C4 (amended): every run selected for dispatch satisfies the selection
predicate — active telegram job, pending run, bot-eligible recipient, and
`now ≥ scheduled_at − advance_minutes` — and the selection is ordered by
scheduled time ascending with at most `batch` runs per cycle; the converse
holds when the query-eligible backlog fits within `batch`.  The `LIMIT`
precedes the due check in the source, so under a larger backlog a due run
can be crowded out by earlier-scheduled not-yet-due runs. -/
theorem C4_selection_sound_complete_under_cap
    (db : DB) (now : Int) (batch : Nat)
    (hndj : (db.jobs.map (fun j => j.id)).Nodup)
    (hndu : (db.users.map (fun u => u.id)).Nodup) :
    (∀ r j u, (r, j, u) ∈ due_selection db now batch →
      (r ∈ db.runs ∧ j ∈ db.jobs ∧ u ∈ db.users ∧
       j.id = r.job_id ∧ u.id = j.user_id ∧
       j.status = "active" ∧ j.channel = "telegram" ∧
       r.status = "pending" ∧ u.telegram_user_id.isSome = true ∧
       u.is_bot_enabled = true ∧
       r.scheduled_at - j.advance_minutes ≤ now)) ∧
    ((eligible_runs db).length ≤ batch →
      ∀ r j u,
        (r ∈ db.runs ∧ j ∈ db.jobs ∧ u ∈ db.users ∧
         j.id = r.job_id ∧ u.id = j.user_id ∧
         j.status = "active" ∧ j.channel = "telegram" ∧
         r.status = "pending" ∧ u.telegram_user_id.isSome = true ∧
         u.is_bot_enabled = true ∧
         r.scheduled_at - j.advance_minutes ≤ now) →
        (r, j, u) ∈ due_selection db now batch) ∧
    (due_selection db now batch).Sorted candOrder ∧
    (due_selection db now batch).length ≤ batch := by
  refine ⟨?_, ?_, ?_, ?_⟩
  · intro r j u h
    unfold due_selection at h
    obtain ⟨hmem, hdue⟩ := List.mem_filter.mp h
    obtain ⟨h1, h2, h3, h4, h5, h6, h7, h8, h9, h10⟩ :=
      (mem_eligible_runs_iff db hndj hndu r j u).mp
        ((List.mem_insertionSort candOrder).mp (List.mem_of_mem_take hmem))
    exact ⟨h1, h2, h3, h4, h5, h6, h7, h8, h9, h10, by simpa using hdue⟩
  · intro hcap r j u h
    obtain ⟨h1, h2, h3, h4, h5, h6, h7, h8, h9, h10, hdue⟩ := h
    have hq : candidates_query db batch =
        (eligible_runs db).insertionSort candOrder := by
      unfold candidates_query
      apply List.take_of_length_le
      rw [List.length_insertionSort]
      exact hcap
    unfold due_selection
    rw [hq]
    exact List.mem_filter.mpr
      ⟨(List.mem_insertionSort candOrder).mpr
        ((mem_eligible_runs_iff db hndj hndu r j u).mpr
          ⟨h1, h2, h3, h4, h5, h6, h7, h8, h9, h10⟩),
        by simpa using hdue⟩
  · exact List.Pairwise.filter _
      (List.Pairwise.sublist (List.take_sublist batch _)
        (List.sorted_insertionSort candOrder (eligible_runs db)))
  · calc (due_selection db now batch).length
        ≤ (candidates_query db batch).length :=
          List.length_filter_le _ _
      _ ≤ batch := by
          unfold candidates_query
          exact (List.length_take_le _ _)

/-- C4 amended-claim witness: in the single-job state at `now = 0` the due
pending run 2 is selected (the backlog fits the batch), via the
completeness direction. -/
theorem C4_witness :
    (runOfGoodJob, jobGoodCron, user1) ∈ due_selection dbGoodOnly 0 100 :=
  (C4_selection_sound_complete_under_cap dbGoodOnly 0 100 (by decide)
    (by decide)).2.1 (by decide) runOfGoodJob jobGoodCron user1 (by decide)

/-- A run already in the terminal status `confirmed`, owned by user 1. -/
def runTerminal : SchedulerJobRun :=
  { id := 1, job_id := 1, period_key := 0, scheduled_at := 0,
    sent_at := none, status := "confirmed", created_at := 0,
    updated_at := 0 }

/-- A database whose single run is already confirmed. -/
def dbTerminal : DB :=
  { users := [user1],
    jobs := [{ id := 1, user_id := 1, name := "j", description := none,
               rule := "cron:10", first_run_at := 0, advance_minutes := 0,
               channel := "telegram", status := "active", created_at := 0,
               updated_at := 0 }],
    runs := [runTerminal],
    confirmations := [], reminders := [],
    nextJobId := 2, nextRunId := 2, nextConfId := 1, nextRemId := 1 }

/-- C8, counterexample: run 1 is in the terminal status `confirmed`, yet a
later `create_confirmation` with a fresh idempotency key and action `skip`
changes its status to `skipped` — the code never checks the run's current
status, so terminal statuses are not protected. -/
theorem C8_counterexample :
    status_of dbTerminal 1 = some "confirmed" ∧
    (match create_confirmation dbTerminal
        { job_run_id := 1, action := "skip", idempotency_key := "late-key",
          payload := none } 1 5 with
      | .ok x => status_of x.2 1
      | .error _ => none) = some "skipped" :=
  ⟨rfl, rfl⟩

/-- The target of a valid confirmation action is one of the four
confirmation statuses. -/
theorem confirmed_status_mem {a : String}
    (ha : a ∈ (["complete", "skip", "snooze", "cancel"] : List String))
    (old : String) :
    confirmed_status a old ∈
      (["confirmed", "skipped", "snoozed", "cancelled"] : List String) := by
  simp only [List.mem_cons, List.mem_singleton] at ha
  rcases ha with rfl | rfl | rfl | rfl | h
  · simp [confirmed_status]
  · simp [confirmed_status]
  · simp [confirmed_status]
  · simp [confirmed_status]
  · exact absurd h (by simp)

/-- C8 (amended): every status change is either pending→sent performed by
the dispatch phase, or a move into {confirmed, skipped, snoozed, cancelled}
performed by `create_confirmation` — but the latter fires from ANY current
status, including the terminal ones, whenever the idempotency key is fresh;
terminal statuses are not protected. -/
theorem C8_status_transitions :
    (∀ (db : DB) (sink : Int → String → Bool) (now : Int) (batch : Nat)
        (rid : Nat), (db.runs.map (fun r => r.id)).Nodup →
      status_of (dispatch_phase sink now batch db) rid ≠ status_of db rid →
      status_of db rid = some "pending" ∧
      status_of (dispatch_phase sink now batch db) rid = some "sent") ∧
    (∀ (db : DB) (p : ConfirmationCreate) (uid : Nat) (now : Int)
        (c : SchedulerConfirmation) (db' : DB) (rid : Nat),
      create_confirmation db p uid now = .ok (c, db') →
      status_of db' rid ≠ status_of db rid →
      ∃ old, status_of db rid = some old ∧
        status_of db' rid = some (confirmed_status p.action old) ∧
        confirmed_status p.action old ∈
          (["confirmed", "skipped", "snoozed", "cancelled"] : List String)) := by
  constructor
  · intro db sink now batch rid hnd hne
    by_cases hmem : rid ∈ sent_ids sink now (candidates_query db batch)
    · obtain ⟨hst1, hst2, -⟩ :=
        status_dispatch_of_mem db sink now batch rid hnd hmem
      exact ⟨hst1, hst2⟩
    · exact absurd (status_dispatch_of_not_mem db sink now batch rid hmem)
        hne
  · intro db p uid now c db' rid hok hne
    unfold create_confirmation at hok
    by_cases ha : p.action ∈
        (["complete", "skip", "snooze", "cancel"] : List String)
    case neg =>
      rw [if_pos ha] at hok
      exact absurd hok (by simp)
    rw [if_neg (not_not_intro ha)] at hok
    cases hreq : require_job_run db p.job_run_id uid with
    | error e =>
      rw [hreq] at hok
      exact absurd hok (by simp)
    | ok run =>
      rw [hreq] at hok
      dsimp only at hok
      cases hex : find_confirmation db p.job_run_id p.idempotency_key with
      | some existing =>
        rw [hex] at hok
        dsimp only at hok
        cases hok
        exact absurd rfl hne
      | none =>
        rw [hex] at hok
        dsimp only at hok
        cases hok
        have hfr2 : find_run (confirmation_insert db p run now) rid =
            (find_run db rid).map
              (apply_confirmation_status p.action now run.id) := by
          unfold find_run confirmation_insert
          dsimp only
          exact find?_id_map db.runs _
            (fun r => apply_confirmation_status_id p.action now run.id r)
            rid
        cases hfr : find_run db rid with
        | none =>
          refine absurd ?_ hne
          unfold status_of
          rw [hfr2, hfr]
          rfl
        | some r =>
          by_cases hid : r.id = run.id
          · refine ⟨r.status, ?_, ?_, confirmed_status_mem ha r.status⟩
            · unfold status_of
              rw [hfr, Option.map_some']
            · unfold status_of
              rw [hfr2, hfr]
              simp only [Option.map_some']
              unfold apply_confirmation_status
              rw [if_pos (by simpa using hid)]
          · refine absurd ?_ hne
            unfold status_of
            rw [hfr2, hfr]
            simp only [Option.map_some']
            unfold apply_confirmation_status
            rw [if_neg (by simpa using hid)]

/-- C8 amended-claim witness: the dispatch transition on run 2 and a
confirmation transition on run 1, both concrete. -/
theorem C8_witness :
    (status_of dbGoodOnly 2 = some "pending" ∧
     status_of (dispatch_phase okSink 0 100 dbGoodOnly) 2 = some "sent") ∧
    (∃ old, status_of dbOwned 1 = some old ∧
      status_of (confirmation_insert dbOwned pC2 runC9 10) 1 =
        some (confirmed_status pC2.action old) ∧
      confirmed_status pC2.action old ∈
        (["confirmed", "skipped", "snoozed", "cancelled"] : List String)) :=
  ⟨C8_status_transitions.1 dbGoodOnly okSink 0 100 2 (by decide)
      (by decide),
   C8_status_transitions.2 dbOwned pC2 1 10 (new_confirmation dbOwned pC2 10)
      (confirmation_insert dbOwned pC2 runC9 10) 1 rfl (by decide)⟩

/-! ## The cron catch-up orbit -/

/-- A smaller fuel yields a prefix of the same orbit. -/
theorem catch_up_prefix (next : Int → Option Int) (now : Int) :
    ∀ (f g : Nat) (t : Int), f ≤ g →
      catch_up_times next now f t = (catch_up_times next now g t).take f := by
  intro f
  induction f with
  | zero => intro g t _; rfl
  | succ f ih =>
    intro g t hfg
    obtain ⟨g', rfl⟩ : ∃ g', g = g' + 1 :=
      ⟨g - 1, by omega⟩
    unfold catch_up_times
    cases next t with
    | none => rfl
    | some u =>
      dsimp only
      by_cases hu : u ≤ now
      · rw [if_pos hu, if_pos hu, List.take_succ_cons]
        exact congrArg _ (ih g' u (by omega))
      · rw [if_neg hu, if_neg hu]
        rfl

/-- Once the orbit stops short of its fuel, more fuel changes nothing. -/
theorem catch_up_stable (next : Int → Option Int) (now : Int) :
    ∀ (f : Nat) (t : Int),
      (catch_up_times next now f t).length < f →
      ∀ g, f ≤ g → catch_up_times next now g t = catch_up_times next now f t := by
  intro f
  induction f with
  | zero => intro t h; omega
  | succ f ih =>
    intro t h g hfg
    obtain ⟨g', rfl⟩ : ∃ g', g = g' + 1 := ⟨g - 1, by omega⟩
    unfold catch_up_times at h ⊢
    cases hn : next t with
    | none => rfl
    | some u =>
      rw [hn] at h
      dsimp only at h ⊢
      by_cases hu : u ≤ now
      · rw [if_pos hu] at h
        simp only [if_pos hu]
        rw [List.length_cons] at h
        exact congrArg _ (ih u (by omega) g' (by omega))
      · rw [if_neg hu] at h
        simp only [if_neg hu]

/-- Every materialized time lies at or before `now`. -/
theorem catch_up_le_now (next : Int → Option Int) (now : Int) :
    ∀ (f : Nat) (t : Int), ∀ x ∈ catch_up_times next now f t, x ≤ now := by
  intro f
  induction f with
  | zero => intro t x hx; exact absurd hx (by simp [catch_up_times])
  | succ f ih =>
    intro t x hx
    unfold catch_up_times at hx
    cases hn : next t with
    | none => rw [hn] at hx; exact absurd hx (by simp)
    | some u =>
      rw [hn] at hx
      dsimp only at hx
      by_cases hu : u ≤ now
      · rw [if_pos hu] at hx
        rcases List.mem_cons.mp hx with rfl | hx'
        · exact hu
        · exact ih u x hx'
      · rw [if_neg hu] at hx
        exact absurd hx (by simp)

/-- With a strictly increasing trigger, every materialized time lies
strictly after the cursor. -/
theorem catch_up_gt (next : Int → Option Int) (now : Int)
    (hincr : ∀ t u, next t = some u → t < u) :
    ∀ (f : Nat) (t : Int), ∀ x ∈ catch_up_times next now f t, t < x := by
  intro f
  induction f with
  | zero => intro t x hx; exact absurd hx (by simp [catch_up_times])
  | succ f ih =>
    intro t x hx
    unfold catch_up_times at hx
    cases hn : next t with
    | none => rw [hn] at hx; exact absurd hx (by simp)
    | some u =>
      rw [hn] at hx
      dsimp only at hx
      by_cases hu : u ≤ now
      · rw [if_pos hu] at hx
        rcases List.mem_cons.mp hx with rfl | hx'
        · exact hincr t x hn
        · exact lt_trans (hincr t u hn) (ih u x hx')
      · rw [if_neg hu] at hx
        exact absurd hx (by simp)

/-- With a strictly increasing trigger, the orbit is strictly sorted. -/
theorem catch_up_sorted (next : Int → Option Int) (now : Int)
    (hincr : ∀ t u, next t = some u → t < u) :
    ∀ (f : Nat) (t : Int),
      List.Sorted (fun a b : Int => a < b) (catch_up_times next now f t) := by
  intro f
  induction f with
  | zero => intro t; exact List.sorted_nil
  | succ f ih =>
    intro t
    unfold catch_up_times
    cases hn : next t with
    | none => exact List.sorted_nil
    | some u =>
      dsimp only
      by_cases hu : u ≤ now
      · rw [if_pos hu]
        exact List.sorted_cons.mpr
          ⟨fun b hb => catch_up_gt next now hincr f u b hb, ih u⟩
      · rw [if_neg hu]
        exact List.sorted_nil

/-- With a strictly increasing trigger, the orbit's length is bounded by
the integer gap up to `now`. -/
theorem catch_up_length_le (next : Int → Option Int) (now : Int)
    (hincr : ∀ t u, next t = some u → t < u) :
    ∀ (f : Nat) (t : Int),
      (catch_up_times next now f t).length ≤ (now - t).toNat := by
  intro f
  induction f with
  | zero => intro t; simp [catch_up_times]
  | succ f ih =>
    intro t
    unfold catch_up_times
    cases hn : next t with
    | none => simp
    | some u =>
      dsimp only
      by_cases hu : u ≤ now
      · rw [if_pos hu, List.length_cons]
        have h1 := ih u
        have h2 := hincr t u hn
        omega
      · rw [if_neg hu]
        simp

/-- All missed occurrences after the cursor `t`: the orbit computed with
fuel certainly larger than its possible length. -/
def missed_list (next : Int → Option Int) (now t : Int) : List Int :=
  catch_up_times next now ((now - t).toNat + 1) t

/-- Any fuel beyond the bound computes the full missed list. -/
theorem catch_up_eq_missed (next : Int → Option Int) (now : Int)
    (hincr : ∀ t u, next t = some u → t < u) (t : Int) (g : Nat)
    (hg : (now - t).toNat + 1 ≤ g) :
    catch_up_times next now g t = missed_list next now t := by
  unfold missed_list
  exact catch_up_stable next now ((now - t).toNat + 1) t
    (Nat.lt_succ_of_le (catch_up_length_le next now hincr _ t)) g hg

/-- The source's 100-capped pass materializes exactly the first 100 missed
occurrences. -/
theorem catch_up_100_take (next : Int → Option Int) (now : Int)
    (hincr : ∀ t u, next t = some u → t < u) (t : Int) :
    catch_up_times next now 100 t = (missed_list next now t).take 100 := by
  by_cases h : 100 ≤ (now - t).toNat + 1
  · exact catch_up_prefix next now 100 _ t h
  · rw [catch_up_eq_missed next now hincr t 100 (by omega)]
    rw [List.take_of_length_le]
    unfold missed_list
    calc (catch_up_times next now ((now - t).toNat + 1) t).length
        ≤ (now - t).toNat := catch_up_length_le next now hincr _ t
      _ ≤ 100 := by omega

/-- Unfolding the head of the missed list: the first occurrence, followed
by the missed list from that occurrence. -/
theorem missed_list_cons (next : Int → Option Int) (now : Int)
    (hincr : ∀ t u, next t = some u → t < u) (t : Int) (u : Int)
    (rest : List Int) (h : missed_list next now t = u :: rest) :
    next t = some u ∧ u ≤ now ∧ missed_list next now u = rest := by
  unfold missed_list at h
  rw [show (now - t).toNat + 1 = ((now - t).toNat) + 1 from rfl] at h
  unfold catch_up_times at h
  cases hn : next t with
  | none => rw [hn] at h; exact absurd h (by simp)
  | some v =>
    rw [hn] at h
    dsimp only at h
    by_cases hv : v ≤ now
    · rw [if_pos hv] at h
      obtain ⟨rfl, hrest⟩ : v = u ∧
          catch_up_times next now ((now - t).toNat) v = rest := by
        cases h; exact ⟨rfl, rfl⟩
      refine ⟨rfl, hv, ?_⟩
      rw [← hrest]
      have hb : (now - v).toNat + 1 ≤ (now - t).toNat := by
        have := hincr t v hn
        omega
      exact (catch_up_eq_missed next now hincr v _ hb).symm
    · rw [if_neg hv] at h
      exact absurd h (by simp)

/-- The last element of a nonempty list (with a default for the empty
one) is a member. -/
theorem getLastD_mem : ∀ (l : List Int) (d : Int), l ≠ [] →
    l.getLastD d ∈ l
  | [], _, h => absurd rfl h
  | [a], d, _ => by simp
  | a :: b :: l, d, _ => by
    rw [List.getLastD_cons]
    exact List.mem_cons_of_mem a (getLastD_mem (b :: l) a (by simp))

/-- In a strictly sorted list every member is at most the last element. -/
theorem le_getLastD_of_sorted :
    ∀ {l : List Int}, List.Sorted (fun a b : Int => a < b) l →
      ∀ {x : Int}, x ∈ l → ∀ d, x ≤ l.getLastD d
  | [], _, x, hx, _ => absurd hx (by simp)
  | a :: l, hs, x, hx, d => by
    rw [List.getLastD_cons]
    obtain ⟨ha, hl⟩ := List.sorted_cons.mp hs
    rcases List.mem_cons.mp hx with rfl | hx'
    · cases hl' : l with
      | nil => simp
      | cons b l' =>
        have hmem : (b :: l').getLastD x ∈ b :: l' :=
          getLastD_mem _ _ (by simp)
        exact le_of_lt (ha _ (by rw [hl']; exact hmem))
    · exact le_getLastD_of_sorted hl hx' a

/-- Splitting the missed list: after materializing a prefix `L`, the missed
list from the last materialized time is exactly the remainder. -/
theorem missed_list_append (next : Int → Option Int) (now : Int)
    (hincr : ∀ t u, next t = some u → t < u) :
    ∀ (L : List Int) (t : Int) (R : List Int),
      missed_list next now t = L ++ R →
      missed_list next now (L.getLastD t) = R := by
  intro L
  induction L with
  | nil => intro t R h; simpa using h
  | cons x L ih =>
    intro t R h
    rw [List.cons_append] at h
    obtain ⟨-, -, hx⟩ := missed_list_cons next now hincr t x (L ++ R) h
    rw [List.getLastD_cons]
    exact ih x R hx

/-! ## The most-recent-run query and run insertion -/

/-- The fold step of `last_run_of`. -/
def last_run_step (jid : Nat) (acc : Option SchedulerJobRun)
    (r : SchedulerJobRun) : Option SchedulerJobRun :=
  if r.job_id == jid then
    match acc with
    | none => some r
    | some best => if best.scheduled_at < r.scheduled_at then some r else acc
  else acc

/-- `last_run_of` is that fold. -/
theorem last_run_of_eq_foldl (runs : List SchedulerJobRun) (jid : Nat) :
    last_run_of runs jid = runs.foldl (last_run_step jid) none := rfl

/-- Specification of the fold underlying `last_run_of`: the result is a
maximal matching run. -/
theorem last_run_foldl_spec (jid : Nat) :
    ∀ (l : List SchedulerJobRun) (acc : Option SchedulerJobRun)
      (r : SchedulerJobRun), l.foldl (last_run_step jid) acc = some r →
      (acc = some r ∨ (r ∈ l ∧ r.job_id = jid)) ∧
      (∀ r' ∈ l, r'.job_id = jid → r'.scheduled_at ≤ r.scheduled_at) ∧
      (∀ a, acc = some a → a.scheduled_at ≤ r.scheduled_at) := by
  intro l
  induction l with
  | nil =>
    intro acc r h
    refine ⟨Or.inl h, by simp, ?_⟩
    intro a ha
    rw [ha] at h
    cases h
    exact le_refl _
  | cons x l ih =>
    intro acc r h
    rw [List.foldl_cons] at h
    obtain ⟨h1, h2, h3⟩ := ih (last_run_step jid acc x) r h
    have hstep : ∀ a, last_run_step jid acc x = some a →
        a.scheduled_at ≤ r.scheduled_at := h3
    by_cases hx : x.job_id = jid
    · have hxbound : x.scheduled_at ≤ r.scheduled_at := by
        unfold last_run_step at hstep
        rw [if_pos (by simpa using hx)] at hstep
        cases hacc : acc with
        | none => exact hstep x (by rw [hacc])
        | some b =>
          rw [hacc] at hstep
          dsimp only at hstep
          by_cases hlt : b.scheduled_at < x.scheduled_at
          · exact hstep x (by rw [if_pos hlt])
          · exact le_trans (not_lt.mp hlt) (hstep b (by rw [if_neg hlt]))
      refine ⟨?_, ?_, ?_⟩
      · rcases h1 with h1 | ⟨hmem, hjid⟩
        · unfold last_run_step at h1
          rw [if_pos (by simpa using hx)] at h1
          cases hacc : acc with
          | none =>
            rw [hacc] at h1
            cases h1
            exact Or.inr ⟨List.mem_cons_self _ _, hx⟩
          | some b =>
            rw [hacc] at h1
            dsimp only at h1
            by_cases hlt : b.scheduled_at < x.scheduled_at
            · rw [if_pos hlt] at h1
              cases h1
              exact Or.inr ⟨List.mem_cons_self _ _, hx⟩
            · rw [if_neg hlt] at h1
              exact Or.inl h1
        · exact Or.inr ⟨List.mem_cons_of_mem x hmem, hjid⟩
      · intro r' hr' hjid'
        rcases List.mem_cons.mp hr' with rfl | hr''
        · exact hxbound
        · exact h2 r' hr'' hjid'
      · intro a ha
        unfold last_run_step at hstep
        rw [if_pos (by simpa using hx)] at hstep
        rw [ha] at hstep
        dsimp only at hstep
        by_cases hlt : a.scheduled_at < x.scheduled_at
        · exact le_trans (le_of_lt hlt) hxbound
        · exact hstep a (by rw [if_neg hlt])
    · have hacc' : last_run_step jid acc x = acc := by
        unfold last_run_step
        rw [if_neg (by simpa using hx)]
      rw [hacc'] at h1 h3
      refine ⟨?_, ?_, h3⟩
      · rcases h1 with h1 | ⟨hmem, hjid⟩
        · exact Or.inl h1
        · exact Or.inr ⟨List.mem_cons_of_mem x hmem, hjid⟩
      · intro r' hr' hjid'
        rcases List.mem_cons.mp hr' with rfl | hr''
        · exact absurd hjid' hx
        · exact h2 r' hr'' hjid'

/-- A run returned by `last_run_of` is a matching run with maximal
scheduled time. -/
theorem last_run_of_spec {runs : List SchedulerJobRun} {jid : Nat}
    {r : SchedulerJobRun} (h : last_run_of runs jid = some r) :
    r ∈ runs ∧ r.job_id = jid ∧
    ∀ r' ∈ runs, r'.job_id = jid → r'.scheduled_at ≤ r.scheduled_at := by
  rw [last_run_of_eq_foldl] at h
  obtain ⟨h1, h2, -⟩ := last_run_foldl_spec jid runs none r h
  rcases h1 with h1 | ⟨hmem, hjid⟩
  · exact absurd h1 (by simp)
  · exact ⟨hmem, hjid, h2⟩

/-- If a matching run exists, the fold cannot return `none`. -/
theorem last_run_foldl_ne_none (jid : Nat) :
    ∀ (l : List SchedulerJobRun) (acc : Option SchedulerJobRun),
      (acc.isSome = true ∨ ∃ r ∈ l, r.job_id = jid) →
      (l.foldl (last_run_step jid) acc).isSome = true := by
  intro l
  induction l with
  | nil =>
    intro acc h
    rcases h with h | ⟨r, hr, -⟩
    · exact h
    · exact absurd hr (by simp)
  | cons x l ih =>
    intro acc h
    rw [List.foldl_cons]
    by_cases hx : x.job_id = jid
    · apply ih
      left
      unfold last_run_step
      rw [if_pos (by simpa using hx)]
      cases acc with
      | none => rfl
      | some b =>
        dsimp only
        by_cases hlt : b.scheduled_at < x.scheduled_at
        · rw [if_pos hlt]; rfl
        · rw [if_neg hlt]; rfl
    · apply ih
      rcases h with h | ⟨r, hr, hjid⟩
      · left
        unfold last_run_step
        rw [if_neg (by simpa using hx)]
        exact h
      · rcases List.mem_cons.mp hr with rfl | hr'
        · exact absurd hjid hx
        · exact Or.inr ⟨r, hr', hjid⟩

/-- The scheduled times of a job's runs, in table order. -/
def job_run_times (db : DB) (jid : Nat) : List Int :=
  (db.runs.filter (fun r => r.job_id == jid)).map (fun r => r.scheduled_at)

/-- The rows `add_runs` appends, with their autoincrement ids. -/
def mk_runs (rid0 : Nat) (jid : Nat) (now : Int) :
    List Int → List SchedulerJobRun
  | [] => []
  | t :: ts => mk_run rid0 jid t now :: mk_runs (rid0 + 1) jid now ts

/-- `add_runs` in closed form. -/
theorem add_runs_eq (jid : Nat) (now : Int) :
    ∀ (ts : List Int) (db : DB),
      add_runs db jid ts now =
        { db with runs := db.runs ++ mk_runs db.nextRunId jid now ts,
                  nextRunId := db.nextRunId + ts.length } := by
  intro ts
  induction ts with
  | nil =>
    intro db
    show db = _
    rw [show mk_runs db.nextRunId jid now [] = [] from rfl,
      List.append_nil, show ([] : List Int).length = 0 from rfl,
      Nat.add_zero]
  | cons t ts ih =>
    intro db
    show add_runs { db with
        runs := db.runs ++ [mk_run db.nextRunId jid t now],
        nextRunId := db.nextRunId + 1 } jid ts now = _
    rw [ih]
    dsimp only
    have h1 : (db.runs ++ [mk_run db.nextRunId jid t now]) ++
        mk_runs (db.nextRunId + 1) jid now ts =
        db.runs ++ mk_runs db.nextRunId jid now (t :: ts) := by
      rw [List.append_assoc]
      rfl
    have h2 : db.nextRunId + 1 + ts.length =
        db.nextRunId + (t :: ts).length := by
      rw [List.length_cons]
      omega
    rw [h1, h2]

/-- The appended rows carry the target job and the given times, in order. -/
theorem mk_runs_times (jid : Nat) (now : Int) :
    ∀ (ts : List Int) (rid0 : Nat),
      ((mk_runs rid0 jid now ts).filter
        (fun r => r.job_id == jid)).map (fun r => r.scheduled_at) = ts := by
  intro ts
  induction ts with
  | nil => intro rid0; rfl
  | cons t ts ih =>
    intro rid0
    show ((mk_run rid0 jid t now :: mk_runs (rid0 + 1) jid now ts).filter
      (fun r => r.job_id == jid)).map (fun r => r.scheduled_at) = t :: ts
    rw [List.filter_cons_of_pos (by simp [mk_run]), List.map_cons]
    rw [ih (rid0 + 1)]
    rfl

/-- A member of the appended rows. -/
theorem mem_mk_runs (jid : Nat) (now : Int) :
    ∀ (ts : List Int) (rid0 : Nat) (r : SchedulerJobRun),
      r ∈ mk_runs rid0 jid now ts →
      r.job_id = jid ∧ r.scheduled_at ∈ ts := by
  intro ts
  induction ts with
  | nil => intro rid0 r hr; exact absurd hr (by simp [mk_runs])
  | cons t ts ih =>
    intro rid0 r hr
    rcases List.mem_cons.mp hr with rfl | hr'
    · exact ⟨rfl, List.mem_cons_self _ _⟩
    · obtain ⟨h1, h2⟩ := ih (rid0 + 1) r hr'
      exact ⟨h1, List.mem_cons_of_mem _ h2⟩

/-- Conversely, each given time is carried by some appended row. -/
theorem mk_runs_surj (jid : Nat) (now : Int) :
    ∀ (ts : List Int) (rid0 : Nat) (x : Int), x ∈ ts →
      ∃ r ∈ mk_runs rid0 jid now ts,
        r.job_id = jid ∧ r.scheduled_at = x := by
  intro ts
  induction ts with
  | nil => intro rid0 x hx; exact absurd hx (by simp)
  | cons t ts ih =>
    intro rid0 x hx
    rcases List.mem_cons.mp hx with rfl | hx'
    · exact ⟨mk_run rid0 jid x now, List.mem_cons_self _ _, rfl, rfl⟩
    · obtain ⟨r, hr, h1, h2⟩ := ih (rid0 + 1) x hx'
      exact ⟨r, List.mem_cons_of_mem _ hr, h1, h2⟩

/-- Inserting runs appends exactly their times to the job's time list. -/
theorem job_run_times_add_runs (db : DB) (jid : Nat) (now : Int)
    (ts : List Int) :
    job_run_times (add_runs db jid ts now) jid =
      job_run_times db jid ++ ts := by
  rw [add_runs_eq]
  unfold job_run_times
  dsimp only
  rw [List.filter_append, List.map_append, mk_runs_times]

/-- Membership in the job's time list. -/
theorem mem_job_run_times {db : DB} {jid : Nat} {x : Int} :
    x ∈ job_run_times db jid ↔
      ∃ r ∈ db.runs, r.job_id = jid ∧ r.scheduled_at = x := by
  unfold job_run_times
  constructor
  · intro h
    obtain ⟨r, hr, hx⟩ := List.mem_map.mp h
    obtain ⟨hmem, hjid⟩ := List.mem_filter.mp hr
    exact ⟨r, hmem, by simpa using hjid, hx⟩
  · rintro ⟨r, hmem, hjid, hx⟩
    exact List.mem_map.mpr ⟨r, List.mem_filter.mpr ⟨hmem, by simp [hjid]⟩,
      hx⟩

/-- After inserting a nonempty strictly increasing batch of later times,
the most recently scheduled run is the batch's last time. -/
theorem last_run_of_add_runs (db : DB) (jid : Nat) (now : Int)
    (L : List Int) (t0 : Int) (hL : L ≠ [])
    (hsorted : List.Sorted (fun a b : Int => a < b) L)
    (hgt : ∀ x ∈ L, t0 < x)
    (hmax : ∀ x ∈ job_run_times db jid, x ≤ t0) :
    ∃ r, last_run_of (add_runs db jid L now).runs jid = some r ∧
      r.scheduled_at = L.getLastD t0 := by
  have hruns : (add_runs db jid L now).runs =
      db.runs ++ mk_runs db.nextRunId jid now L := by
    rw [add_runs_eq]
  have hglmem : L.getLastD t0 ∈ L := getLastD_mem L t0 hL
  obtain ⟨w, hw, hwjid, hwsched⟩ :=
    mk_runs_surj jid now L db.nextRunId (L.getLastD t0) hglmem
  have hsome : (last_run_of (add_runs db jid L now).runs jid).isSome =
      true := by
    rw [last_run_of_eq_foldl]
    apply last_run_foldl_ne_none
    right
    exact ⟨w, by rw [hruns]; exact List.mem_append_right _ hw, hwjid⟩
  obtain ⟨r, hr⟩ := Option.isSome_iff_exists.mp hsome
  obtain ⟨hmem, hjid, hmax'⟩ := last_run_of_spec hr
  refine ⟨r, hr, le_antisymm ?_ ?_⟩
  · rw [hruns] at hmem
    rcases List.mem_append.mp hmem with hold | hnew
    · have : r.scheduled_at ≤ t0 :=
        hmax _ (mem_job_run_times.mpr ⟨r, hold, hjid, rfl⟩)
      exact le_trans this (le_of_lt (hgt _ hglmem))
    · obtain ⟨-, hsched⟩ := mem_mk_runs jid now L db.nextRunId r hnew
      exact le_getLastD_of_sorted hsorted hsched t0
  · have hwle := hmax' w (by rw [hruns]; exact List.mem_append_right _ hw)
      hwjid
    rw [hwsched] at hwle
    exact hwle

/-- `_ensure_job_runs` on a cron job that already has runs: one capped
catch-up pass from the most recently scheduled run. -/
theorem ensure_job_runs_cron (lib : CronLib) (job : SchedulerJob) (db : DB)
    (now : Int) (trg : CronTrigger) (last : SchedulerJobRun)
    (hparse : parse_cron_rule lib job.rule = .ok (some trg))
    (hlast : last_run_of db.runs job.id = some last) :
    ensure_job_runs lib job db now =
      .ok (add_runs db job.id
        (catch_up_times trg.next now 100 last.scheduled_at) now) := by
  unfold ensure_job_runs
  rw [hlast]
  dsimp only
  rw [hparse]

/-- Repeated materialization cycles for one job (what the scheduler loop
does to this job across cycles). -/
def ensure_iter (lib : CronLib) (job : SchedulerJob) (now : Int) :
    Nat → DB → Except String DB
  | 0, db => .ok db
  | k + 1, db =>
    match ensure_job_runs lib job db now with
    | .error e => .error e
    | .ok db' => ensure_iter lib job now k db'

/-- Enough materialization cycles create exactly the missed occurrences. -/
theorem ensure_iter_catches_up (lib : CronLib) (job : SchedulerJob)
    (now : Int) (trg : CronTrigger)
    (hparse : parse_cron_rule lib job.rule = .ok (some trg))
    (hincr : ∀ t u, trg.next t = some u → t < u) :
    ∀ (fuel : Nat) (db : DB) (last : SchedulerJobRun),
      last_run_of db.runs job.id = some last →
      (missed_list trg.next now last.scheduled_at).length ≤ fuel →
      ∃ db', ensure_iter lib job now fuel db = .ok db' ∧
        job_run_times db' job.id = job_run_times db job.id ++
          missed_list trg.next now last.scheduled_at := by
  intro fuel
  induction fuel with
  | zero =>
    intro db last hlast hlen
    have hnil : missed_list trg.next now last.scheduled_at = [] :=
      List.eq_nil_of_length_eq_zero (by omega)
    exact ⟨db, rfl, by rw [hnil, List.append_nil]⟩
  | succ fuel ih =>
    intro db last hlast hlen
    by_cases hM : missed_list trg.next now last.scheduled_at = []
    · have hstep : ensure_job_runs lib job db now = .ok db := by
        rw [ensure_job_runs_cron lib job db now trg last hparse hlast,
          catch_up_100_take trg.next now hincr last.scheduled_at, hM]
        rfl
      obtain ⟨db', hiter, htimes⟩ := ih db last hlast (by simp [hM])
      refine ⟨db', ?_, htimes⟩
      show (match ensure_job_runs lib job db now with
        | Except.error e => Except.error e
        | Except.ok db1 => ensure_iter lib job now fuel db1) = Except.ok db'
      rw [hstep]
      exact hiter
    · have hLne : (missed_list trg.next now last.scheduled_at).take 100 ≠
          [] := by
        rw [Ne, List.take_eq_nil_iff]
        simp [hM]
      have hMsorted : List.Sorted (fun a b : Int => a < b)
          (missed_list trg.next now last.scheduled_at) :=
        catch_up_sorted trg.next now hincr _ _
      have hLsorted : List.Sorted (fun a b : Int => a < b)
          ((missed_list trg.next now last.scheduled_at).take 100) :=
        hMsorted.sublist (List.take_sublist _ _)
      have hgtL : ∀ x ∈ (missed_list trg.next now last.scheduled_at).take
          100, last.scheduled_at < x := fun x hx =>
        catch_up_gt trg.next now hincr _ _ x (List.mem_of_mem_take hx)
      have hmax : ∀ x ∈ job_run_times db job.id, x ≤ last.scheduled_at := by
        intro x hx
        obtain ⟨r, hmem, hjid, hsched⟩ := mem_job_run_times.mp hx
        rw [← hsched]
        exact (last_run_of_spec hlast).2.2 r hmem hjid
      obtain ⟨r1, hlast1, hsched1⟩ := last_run_of_add_runs db job.id now
        ((missed_list trg.next now last.scheduled_at).take 100)
        last.scheduled_at hLne hLsorted hgtL hmax
      have hstep : ensure_job_runs lib job db now = .ok (add_runs db job.id
          ((missed_list trg.next now last.scheduled_at).take 100) now) := by
        rw [ensure_job_runs_cron lib job db now trg last hparse hlast,
          catch_up_100_take trg.next now hincr last.scheduled_at]
      have hmissed1 : missed_list trg.next now r1.scheduled_at =
          (missed_list trg.next now last.scheduled_at).drop 100 := by
        rw [hsched1]
        exact missed_list_append trg.next now hincr _ last.scheduled_at _
          (List.take_append_drop 100 _).symm
      have hbound : (missed_list trg.next now r1.scheduled_at).length ≤
          fuel := by
        rw [hmissed1, List.length_drop]
        have h1 : (missed_list trg.next now last.scheduled_at).length ≠ 0 :=
          fun h => hM (List.eq_nil_of_length_eq_zero h)
        omega
      obtain ⟨db', hiter, htimes⟩ := ih (add_runs db job.id
        ((missed_list trg.next now last.scheduled_at).take 100) now) r1
        hlast1 hbound
      refine ⟨db', ?_, ?_⟩
      · show (match ensure_job_runs lib job db now with
          | Except.error e => Except.error e
          | Except.ok db1 => ensure_iter lib job now fuel db1) =
          Except.ok db'
        rw [hstep]
        exact hiter
      · rw [htimes, hmissed1, job_run_times_add_runs, List.append_assoc,
          List.take_append_drop]

/-- C7: for a cron job with at least one run, one materialization pass
creates the first `min(N, 100)` missed occurrences (each ≤ now, each after
the current latest run, strictly increasing, appended in order), and
iterating the cycle eventually creates exactly one run per missed
occurrence — none skipped, none duplicated. -/
theorem C7_cron_catch_up
    (lib : CronLib) (job : SchedulerJob) (db : DB) (now : Int)
    (trg : CronTrigger)
    (hparse : parse_cron_rule lib job.rule = .ok (some trg))
    (hincr : ∀ t u, trg.next t = some u → t < u)
    (last : SchedulerJobRun)
    (hlast : last_run_of db.runs job.id = some last) :
    (ensure_job_runs lib job db now =
      .ok (add_runs db job.id
        ((missed_list trg.next now last.scheduled_at).take 100) now) ∧
     job_run_times (add_runs db job.id
        ((missed_list trg.next now last.scheduled_at).take 100) now)
        job.id =
       job_run_times db job.id ++
         (missed_list trg.next now last.scheduled_at).take 100 ∧
     ((missed_list trg.next now last.scheduled_at).take 100).length =
       min (missed_list trg.next now last.scheduled_at).length 100 ∧
     (∀ x ∈ missed_list trg.next now last.scheduled_at,
       x ≤ now ∧ last.scheduled_at < x) ∧
     List.Sorted (fun a b : Int => a < b)
       (missed_list trg.next now last.scheduled_at)) ∧
    (∃ K db', ensure_iter lib job now K db = .ok db' ∧
      job_run_times db' job.id = job_run_times db job.id ++
        missed_list trg.next now last.scheduled_at ∧
      ∀ x ∈ missed_list trg.next now last.scheduled_at,
        (job_run_times db job.id).count x = 0 ∧
        (job_run_times db' job.id).count x = 1) := by
  have hMsorted : List.Sorted (fun a b : Int => a < b)
      (missed_list trg.next now last.scheduled_at) :=
    catch_up_sorted trg.next now hincr _ _
  have hmax : ∀ x ∈ job_run_times db job.id, x ≤ last.scheduled_at := by
    intro x hx
    obtain ⟨r, hmem, hjid, hsched⟩ := mem_job_run_times.mp hx
    rw [← hsched]
    exact (last_run_of_spec hlast).2.2 r hmem hjid
  constructor
  · refine ⟨?_, ?_, ?_, ?_, hMsorted⟩
    · rw [ensure_job_runs_cron lib job db now trg last hparse hlast,
        catch_up_100_take trg.next now hincr last.scheduled_at]
    · exact job_run_times_add_runs db job.id now _
    · rw [List.length_take, Nat.min_comm]
    · intro x hx
      exact ⟨catch_up_le_now trg.next now _ _ x hx,
        catch_up_gt trg.next now hincr _ _ x hx⟩
  · obtain ⟨db', hiter, htimes⟩ := ensure_iter_catches_up lib job now trg
      hparse hincr (missed_list trg.next now last.scheduled_at).length db
      last hlast (le_refl _)
    refine ⟨_, db', hiter, htimes, ?_⟩
    intro x hx
    have hgtx : last.scheduled_at < x :=
      catch_up_gt trg.next now hincr _ _ x hx
    have hold : (job_run_times db job.id).count x = 0 := by
      rw [List.count_eq_zero]
      intro hmem
      exact absurd (hmax x hmem) (not_le.mpr hgtx)
    refine ⟨hold, ?_⟩
    rw [htimes, List.count_append, hold,
      List.count_eq_one_of_mem (hMsorted.nodup) hx]

/-- A trigger equal to the one the toy library parses from `cron:10`. -/
def toyTrg : CronTrigger := ⟨fun t => some (t + (10 : Nat))⟩

/-- C7 witness: for the every-10-minutes job with one run at time 0, at
`now = 35` one pass materializes the missed occurrences 10, 20, 30. -/
theorem C7_witness :
    ensure_job_runs toyCron jobGoodCron dbGoodOnly 35 =
      .ok (add_runs dbGoodOnly jobGoodCron.id
        ((missed_list toyTrg.next 35 runOfGoodJob.scheduled_at).take 100)
        35) :=
  (C7_cron_catch_up toyCron jobGoodCron dbGoodOnly 35 toyTrg rfl
    (by
      intro t u h
      have : u = t + (10 : Nat) := by
        have := congrArg (fun o => o.getD 0) h
        simpa using this.symm
      omega)
    runOfGoodJob (by decide)).1.1

end FlowLedger
